import Mathlib

/-! Shallow embedding of the Travian artefact planner
(`src/app_planner_targets_pickups.py`): the planner utilities
(`normalize_off_type`, `off_compat`, `pickup_compat`, `priority_key`,
`ts_travel_hours`) and the assignment engine (`create_plan`), together with
proofs about the specification's testable properties.

Modelling conventions:
* Python strings are Lean `String`s; `str.lower`, `str.strip`,
  `str.replace` and the `in` substring test are re-implemented
  structurally on the underlying character list so that everything is
  executable and kernel-reducible.  Case folding is ASCII-only (the
  keyword constants of the source are copied byte-for-byte, including
  its non-ASCII characters, written with unicode escapes).
* Python floats are modelled exactly: every travel time computed by the
  planner has the form `a·√s + b` with `a s b : ℚ` (`s` a sum of two
  squares), captured by the structure `QI`; the float comparisons of the
  source become the (decidable) real-number order on such values.
  `float("inf")` (the initial `best_..._eta`) is modelled by `Option QI`
  with `none` for infinity.
* Python's `ZeroDivisionError` is modelled by `Except Unit`: a division
  whose divisor is zero yields `Except.error ()`, which propagates out of
  `create_plan` exactly as the uncaught exception does in the source.
* The numeric table cells are modelled at the types the source's
  normalisation step produces (`float` → `ℚ`, `int` → `ℤ`), with
  `Option` for cells that can be `NaN`/missing and are `pd.isna`-checked
  or `fillna`-defaulted by the source.
* `pandas.sort_values(by=["_p1","_p2"])` sorts on two key columns, which
  pandas implements with `numpy.lexsort`, an indirect *stable* sort; it
  is modelled by `List.insertionSort` with the lexicographic `≤` on the
  key pair, which is likewise stable.
-/

deriving instance DecidableEq for Except

namespace Planner

/-! ### Python string primitives -/

/-- `str.lower` (ASCII case folding; no keyword relevant to the claims
contains a case-sensitive non-ASCII letter). -/
def pylower (s : String) : String := ⟨s.data.map Char.toLower⟩

/-- `str.strip()`: remove leading and trailing whitespace. -/
def pystrip (s : String) : String :=
  ⟨((s.data.dropWhile Char.isWhitespace).reverse.dropWhile Char.isWhitespace).reverse⟩

/-- One-pass left-to-right non-overlapping replacement on character
lists, as performed by Python's `str.replace`; structurally recursive on
a fuel argument (each step consumes at least one character, so fuel
equal to the list length never runs out). -/
def replaceFuel (pat rep : List Char) : ℕ → List Char → List Char
  | _, [] => []
  | 0, s => s
  | fuel + 1, c :: rest =>
    if pat ≠ [] ∧ pat.isPrefixOf (c :: rest) then
      rep ++ replaceFuel pat rep fuel ((c :: rest).drop pat.length)
    else
      c :: replaceFuel pat rep fuel rest

/-- Replacement at full fuel. -/
def replaceL (pat rep s : List Char) : List Char := replaceFuel pat rep s.length s

/-- `s.replace(pat, rep)`. -/
def pyreplace (s pat rep : String) : String := ⟨replaceL pat.data rep.data s.data⟩

/-- Substring occurrence on character lists. -/
def isSubL (pat : List Char) : List Char → Bool
  | [] => pat.isEmpty
  | c :: rest => pat.isPrefixOf (c :: rest) || isSubL pat rest

/-- Python's `pat in s` substring test. -/
def pyin (pat s : String) : Bool := isSubL pat.data s.data

/-! ### Exact travel-time values: quadratic irrationals `a·√s + b` -/

/-- An exact travel-time value `a·√s + b` (`√` of a negative radicand
counts as `0`, matching `Real.sqrt`; in the planner `s` is always a sum
of two squares, hence nonnegative). -/
structure QI where
  a : ℚ
  s : ℚ
  b : ℚ
  deriving DecidableEq, Repr

namespace QI

/-- The real number denoted by a `QI` value. -/
noncomputable def toReal (x : QI) : ℝ := x.a * Real.sqrt x.s + x.b

/-- Decide `q < a·√s`. -/
def ltRatTerm (q a s : ℚ) : Bool :=
  if a = 0 ∨ s ≤ 0 then decide (q < 0)
  else if 0 < a then decide (q < 0) || decide (q ^ 2 < a ^ 2 * s)
  else decide (q < 0) && decide (a ^ 2 * s < q ^ 2)

/-- Decide `a·√s < q`, via `-q < (-a)·√s`. -/
def ltTermRat (a s q : ℚ) : Bool := ltRatTerm (-q) (-a) s

/-- Decide `a1·√s1 < c + a2·√s2` by sign analysis and squaring. -/
def ltTermRatTerm (a1 s1 c a2 s2 : ℚ) : Bool :=
  if a2 = 0 ∨ s2 ≤ 0 then ltTermRat a1 s1 c
  else if a1 = 0 ∨ s1 ≤ 0 then ltRatTerm (-c) a2 s2
  else if 0 < a1 then
    ltRatTerm (-c) a2 s2 &&
      ltRatTerm (a1 ^ 2 * s1 - a2 ^ 2 * s2 - c ^ 2) (2 * c * a2) s2
  else
    ltRatTerm (-c) a2 s2 ||
      ltTermRat (2 * c * a2) s2 (a1 ^ 2 * s1 - a2 ^ 2 * s2 - c ^ 2)

/-- The real-number strict order on exact travel-time values: this is the
`<` the source applies to its float travel times. -/
def blt (x y : QI) : Bool := ltTermRatTerm x.a x.s (y.b - x.b) y.a y.s

/-- Python's two-argument `max` (returns the first argument on ties). -/
def pymax (x y : QI) : QI := if blt x y then y else x

end QI

/-! ### Planner utilities (source lines 156–197) -/

/-- `VALID_TYPES` (source line 26). -/
def VALID_TYPES : List String := ["small", "large", "unique"]

/-- `normalize_off_type` (source lines 156–162).  The replaced pattern is
the source's two-character sequence U+00C3 U+0178 (mojibake of `ß`), and
the "large" keyword list likewise contains `gro` followed by that
sequence, copied byte-for-byte. -/
def normalize_off_type (s : String) : String :=
  let s := pyreplace (pylower (pystrip s)) "ÃŸ" "ss"
  if pyin "uni" s || pyin "einzig" s then "unique"
  else if pyin "gross" s || pyin "groÃŸ" s || pyin "large" s || pyin "big" s then
    "large"
  else if pyin "small" s || pyin "klein" s then "small"
  else s

/-- `off_compat` (source lines 164–169). -/
def off_compat (off_type arti_type : String) : Bool :=
  let o := normalize_off_type off_type
  if o = "small" then arti_type == "small"
  else if o = "large" then arti_type == "large" || arti_type == "small"
  else if o = "unique" then true
  else false

/-- `pickup_compat` (source lines 171–175): the treasury cell is an `int`
after the engine's normalisation, so the `int(treasury)` conversion is
total here and the `except: return False` path cannot fire. -/
def pickup_compat (treasury : ℤ) (arti_type : String) : Bool :=
  if treasury < 20 then arti_type == "small" else true

/-- `priority_key` (source lines 177–186); keyword lists copied
byte-for-byte (including the mojibake scouting keyword
`sp` U+00C3 U+00A4 `her`). -/
def priority_key (name typ : String) : ℕ × ℕ :=
  let n := pylower name
  let t := pylower typ
  if t == "unique" || pyin "unique" n || pyin "einzig" n then (1, 0)
  else if ["trainer", "ausbilder"].any (fun k => pyin k n) then (2, 0)
  else if ["diet", "getreide", "hunger"].any (fun k => pyin k n) then (2, 1)
  else if ["boots", "stiefel", "schnellere truppen"].any (fun k => pyin k n) then (2, 2)
  else if ["eyes", "auge", "spÃ¤her", "scout", "spaeher"].any (fun k => pyin k n) then
    (2, 3)
  else if ["plan", "bauplan", "great warehouse", "lager", "granary", "blueprint",
      "weltwunder"].any (fun k => pyin k n) then (3, 0)
  else (4, 0)

/-- Float division as in Python: raises `ZeroDivisionError` (modelled as
`Except.error ()`) when the divisor is zero. -/
def pydiv (a b : ℚ) : Except Unit ℚ :=
  if b = 0 then .error () else .ok (a / b)

/-- Division of an exact value `a·√s + b` by a rational. -/
def pydivQI (x : QI) (b : ℚ) : Except Unit QI :=
  if b = 0 then .error () else .ok ⟨x.a / b, x.s, x.b / b⟩

/-- `ts_travel_hours` (source lines 188–197).  The distance
`d = math.hypot(x1-x2, y1-y2)` is carried exactly as `√d2` with
`d2 = (x1-x2)² + (y1-y2)²`, and the source's `d <= 20` is rendered
equivalently as `d2 ≤ 400` (`d` is nonnegative).  The source's
`try`/`except` guards only the `float(...)` conversions — which are
total at these argument types — so the divisions by `speed` and by
`speed*(1.0+0.1*ts)` raise exactly when their divisor is zero. -/
def ts_travel_hours (x1 y1 x2 y2 speed ts : ℚ) : Except Unit QI :=
  let d2 := (x1 - x2) ^ 2 + (y1 - y2) ^ 2
  if d2 ≤ 400 then pydivQI ⟨1, d2, 0⟩ speed
  else
    (pydiv 20 speed).bind fun first =>
      (pydivQI ⟨1, d2, -20⟩ (speed * (1 + 0.1 * ts))).bind fun rest =>
        .ok ⟨rest.a, rest.s, first + rest.b⟩

/-! ### Data model (session tables, source lines 13–24 and §6 of the spec) -/

structure OffRow where
  Name : String
  coord_x : Option ℚ
  coord_y : Option ℚ
  Speed : ℚ
  TS : ℚ
  Typ : String
  deriving DecidableEq, Repr

structure CatRow where
  Name : String
  coord_x : Option ℚ
  coord_y : Option ℚ
  Speed : ℚ
  TS : ℚ
  UsesLeft : Option ℤ
  deriving DecidableEq, Repr

structure PickRow where
  Name : String
  coord_x : Option ℚ
  coord_y : Option ℚ
  Treasury : Option ℤ
  Speed : ℚ
  TS : ℚ
  deriving DecidableEq, Repr

structure TarRow where
  Artefact : String
  Typ : String
  coord_x : Option ℚ
  coord_y : Option ℚ
  deriving DecidableEq, Repr

/-- Python `int(·)` on a float: truncation toward zero. -/
def pyint (q : ℚ) : ℤ := q.num / (q.den : ℤ)

/-- One row of the `PLANNED` output table (source lines 274–285).  The
three `...Idx` fields record the source's `best_off_idx`,
`best_cat_idx`, `best_pick_idx` loop variables so that resource usage
can be stated per record; the ETA cells hold the exact values (the
source's `round(·, 2)` is presentation-layer rounding, spec §6). -/
structure PlanEntry where
  Artefact : String
  Typ : String
  target_x : ℤ
  target_y : ℤ
  Off : String
  OffETA : QI
  Cata : String
  CataETA : QI
  Pickup : String
  PickupETA : QI
  Arrival : QI
  offIdx : ℕ
  catIdx : ℕ
  pickIdx : ℕ
  deriving DecidableEq, Repr

/-- One row of the `UNPLANNED` output table. -/
structure UnpEntry where
  Artefact : String
  Reason : String
  deriving DecidableEq, Repr

/-! ### The assignment engine (source lines 202–288) -/

/-- `eta < best_..._eta` with `best` initialised to `float("inf")`
(`none`). -/
def etaLt (eta : QI) : Option QI → Bool
  | none => true
  | some b => QI.blt eta b

/-- The OFF search loop (source lines 234–241): linear scan, skipping
used rows, incompatible rows and rows with missing coordinates, keeping
the strictly smallest ETA (ties keep the earlier row). -/
def scanOffAux (typ : String) (tx ty : ℚ) (used : List ℕ) :
    ℕ → List OffRow → Option (ℕ × OffRow × QI) → Except Unit (Option (ℕ × OffRow × QI))
  | _, [], best => .ok best
  | i, o :: rest, best =>
    if i ∈ used then scanOffAux typ tx ty used (i + 1) rest best
    else if !off_compat o.Typ typ then scanOffAux typ tx ty used (i + 1) rest best
    else
      match o.coord_x, o.coord_y with
      | some ox, some oy =>
        (ts_travel_hours ox oy tx ty o.Speed o.TS).bind fun eta =>
          if etaLt eta (best.map (fun b => b.2.2)) then
            scanOffAux typ tx ty used (i + 1) rest (some (i, o, eta))
          else scanOffAux typ tx ty used (i + 1) rest best
      | _, _ => scanOffAux typ tx ty used (i + 1) rest best

/-- The CATA search loop (source lines 246–252): rows with
`UsesLeft <= 0` are skipped; there is no used-set. -/
def scanCatAux (tx ty : ℚ) :
    ℕ → List CatRow → Option (ℕ × CatRow × QI) → Except Unit (Option (ℕ × CatRow × QI))
  | _, [], best => .ok best
  | i, c :: rest, best =>
    if c.UsesLeft.getD 0 ≤ 0 then scanCatAux tx ty (i + 1) rest best
    else
      match c.coord_x, c.coord_y with
      | some cx, some cy =>
        (ts_travel_hours cx cy tx ty c.Speed c.TS).bind fun eta =>
          if etaLt eta (best.map (fun b => b.2.2)) then
            scanCatAux tx ty (i + 1) rest (some (i, c, eta))
          else scanCatAux tx ty (i + 1) rest best
      | _, _ => scanCatAux tx ty (i + 1) rest best

/-- The PICKUP search loop (source lines 257–264). -/
def scanPickAux (typ : String) (tx ty : ℚ) (used : List ℕ) :
    ℕ → List PickRow → Option (ℕ × PickRow × QI) → Except Unit (Option (ℕ × PickRow × QI))
  | _, [], best => .ok best
  | i, p :: rest, best =>
    if i ∈ used then scanPickAux typ tx ty used (i + 1) rest best
    else if !pickup_compat (p.Treasury.getD 0) typ then
      scanPickAux typ tx ty used (i + 1) rest best
    else
      match p.coord_x, p.coord_y with
      | some px, some py =>
        (ts_travel_hours px py tx ty p.Speed p.TS).bind fun eta =>
          if etaLt eta (best.map (fun b => b.2.2)) then
            scanPickAux typ tx ty used (i + 1) rest (some (i, p, eta))
          else scanPickAux typ tx ty used (i + 1) rest best
      | _, _ => scanPickAux typ tx ty used (i + 1) rest best

/-- The engine's per-run mutable state: the (copied) CATA table with its
decremented `UsesLeft` cells, the `used_off`/`used_pick` index sets, and
the accumulating `planned`/`unplanned` record lists. -/
structure PSt where
  cats : List CatRow
  usedOff : List ℕ
  usedPick : List ℕ
  planned : List PlanEntry
  unplanned : List UnpEntry
  deriving DecidableEq, Repr

/-- One iteration of the per-target loop of `create_plan` (source lines
222–285): validation, the three pool searches in the fixed order
OFF → CATA → PICKUP with early exit to `unplanned` at the first failing
pool, then reservation and emission of the plan row. -/
def tarStep (offs : List OffRow) (pics : List PickRow) (st : PSt) (t : TarRow) :
    Except Unit PSt :=
  let name := t.Artefact
  let typ := pylower t.Typ
  if typ ∈ VALID_TYPES then
    match t.coord_x, t.coord_y with
    | some tx, some ty =>
      (scanOffAux typ tx ty st.usedOff 0 offs none).bind fun bo =>
        match bo with
        | none => .ok { st with unplanned := st.unplanned ++ [⟨name, "No compatible OFF"⟩] }
        | some (oIdx, oRow, oEta) =>
          (scanCatAux tx ty 0 st.cats none).bind fun bc =>
            match bc with
            | none =>
              .ok { st with unplanned := st.unplanned ++ [⟨name, "No CATA with uses left"⟩] }
            | some (cIdx, cRow, cEta) =>
              (scanPickAux typ tx ty st.usedPick 0 pics none).bind fun bp =>
                match bp with
                | none =>
                  .ok { st with
                    unplanned := st.unplanned ++ [⟨name, "No compatible PICKUP (treasury)"⟩] }
                | some (pIdx, pRow, pEta) =>
                  .ok { st with
                    cats := st.cats.set cIdx
                      { cRow with UsesLeft := some (cRow.UsesLeft.getD 0 - 1) }
                    usedOff := st.usedOff ++ [oIdx]
                    usedPick := st.usedPick ++ [pIdx]
                    planned := st.planned ++
                      [⟨name, typ, pyint tx, pyint ty, oRow.Name, oEta, cRow.Name, cEta,
                        pRow.Name, pEta, QI.pymax (QI.pymax oEta cEta) pEta,
                        oIdx, cIdx, pIdx⟩] }
    | _, _ => .ok { st with unplanned := st.unplanned ++ [⟨name, "Missing coordinates"⟩] }
  else
    .ok { st with unplanned := st.unplanned ++ [⟨name, "Invalid type"⟩] }

/-- The per-target loop over the priority-sorted target queue. -/
def runTargets (offs : List OffRow) (pics : List PickRow) :
    List TarRow → PSt → Except Unit PSt
  | [], st => .ok st
  | t :: ts, st => (tarStep offs pics st t).bind (runTargets offs pics ts)

/-- The priority key of a target row (source line 215). -/
def tarKey (t : TarRow) : ℕ × ℕ := priority_key t.Artefact t.Typ

/-- Lexicographic `≤` on priority keys: the sort order of
`sort_values(by=["_p1","_p2"])`. -/
def tarLe (a b : TarRow) : Prop :=
  (tarKey a).1 < (tarKey b).1 ∨
    ((tarKey a).1 = (tarKey b).1 ∧ (tarKey a).2 ≤ (tarKey b).2)

instance : DecidableRel tarLe := fun a b => by unfold tarLe; infer_instance

instance : IsTotal TarRow tarLe := ⟨by intro a b; unfold tarLe; omega⟩

instance : IsTrans TarRow tarLe := ⟨by intro a b c; unfold tarLe; omega⟩

/-- The target sort (source lines 214–217): a stable ascending sort on
the key pair, as performed by pandas' two-column `sort_values`
(`numpy.lexsort`). -/
def sortTargets (l : List TarRow) : List TarRow := List.insertionSort tarLe l

/-- Normalisation of the OFF table (source line 209). -/
def normOff (o : OffRow) : OffRow := { o with Typ := normalize_off_type o.Typ }

/-- Normalisation of the CATA table (source line 210): missing `UsesLeft`
defaults to 2. -/
def normCat (c : CatRow) : CatRow := { c with UsesLeft := some (c.UsesLeft.getD 2) }

/-- Normalisation of the PICKUP table (source line 211): missing
`Treasury` defaults to 0. -/
def normPick (p : PickRow) : PickRow := { p with Treasury := some (p.Treasury.getD 0) }

/-- The four input tables of a planning run. -/
structure Tables where
  OFFS : List OffRow
  CATTAS : List CatRow
  PICKUPS : List PickRow
  TARGETS : List TarRow
  deriving DecidableEq, Repr

/-- `create_plan` (source lines 202–288) as a function of the input
snapshot: copy and normalise the tables, stably sort the targets by
priority, run the greedy per-target loop, and return the `planned` and
`unplanned` record lists.  An uncaught `ZeroDivisionError` from
`ts_travel_hours` surfaces as `Except.error ()`. -/
def create_plan (tb : Tables) : Except Unit (List PlanEntry × List UnpEntry) :=
  let offs := tb.OFFS.map normOff
  let cats := tb.CATTAS.map normCat
  let pics := tb.PICKUPS.map normPick
  let tars := sortTargets tb.TARGETS
  (runTargets offs pics tars ⟨cats, [], [], [], []⟩).map fun st =>
    (st.planned, st.unplanned)

/-- The full session state (`st.session_state`). -/
structure Session where
  OFFS : List OffRow
  CATTAS : List CatRow
  PICKUPS : List PickRow
  TARGETS : List TarRow
  PLANNED : List PlanEntry
  UNPLANNED : List UnpEntry
  deriving DecidableEq, Repr

/-- `create_plan` acting on the session state: it reads (copies of) the
four input tables and replaces only `PLANNED` and `UNPLANNED`
(source lines 202–206 and 287–288). -/
def create_plan_session (s : Session) : Except Unit Session :=
  (create_plan ⟨s.OFFS, s.CATTAS, s.PICKUPS, s.TARGETS⟩).map fun out =>
    { s with PLANNED := out.1, UNPLANNED := out.2 }

/-! ### Further definitions used by the theorems -/

/-- Strict ordering on priority keys (lower sorts earlier). -/
def pkLt (a b : ℕ × ℕ) : Prop := a.1 < b.1 ∨ (a.1 = b.1 ∧ a.2 < b.2)

instance (a b : ℕ × ℕ) : Decidable (pkLt a b) := by
  unfold pkLt
  infer_instance

/-- A row condition ruling out the division-by-zero crash. -/
def SafeRow (speed ts : ℚ) : Prop := speed ≠ 0 ∧ 0 ≤ ts

/-- Number of plan rows using strike force `j`. -/
def offUses (j : ℕ) (p : List PlanEntry) : ℕ := p.countP (fun e => e.offIdx == j)

/-- Number of plan rows using carrier `j`. -/
def pickUses (j : ℕ) (p : List PlanEntry) : ℕ := p.countP (fun e => e.pickIdx == j)

/-- Number of plan rows using siege asset `j`. -/
def catUses (j : ℕ) (p : List PlanEntry) : ℕ := p.countP (fun e => e.catIdx == j)

/-- The remaining-capacity cell of siege asset `j` (0 out of range). -/
def usesAt (l : List CatRow) (j : ℕ) : ℤ :=
  match l.get? j with
  | some c => c.UsesLeft.getD 0
  | none => 0

/-- The capacity invariant maintained by the per-target loop, relative to
the initial (normalised) CATA table `cats0`: each OFF/PICKUP index is
used at most once and only if recorded in the used-set, and each CATA
cell always equals its initial value minus the number of plan rows that
reserved it (never decremented below zero). -/
structure EngineInv (cats0 : List CatRow) (st : PSt) : Prop where
  offB : ∀ j, offUses j st.planned ≤ if j ∈ st.usedOff then 1 else 0
  pickB : ∀ j, pickUses j st.planned ≤ if j ∈ st.usedPick then 1 else 0
  catB : ∀ j, usesAt st.cats j = usesAt cats0 j - catUses j st.planned
  catNN : ∀ j, 0 < catUses j st.planned → 0 ≤ usesAt st.cats j

/-! ### Reduction helpers for `Except` -/

theorem ebind_ok {α β : Type} (a : α) (f : α → Except Unit β) :
    (Except.ok a : Except Unit α).bind f = f a := rfl

theorem ebind_err {α β : Type} (f : α → Except Unit β) :
    (Except.error () : Except Unit α).bind f = .error () := rfl

theorem emap_ok {α β : Type} (a : α) (f : α → β) :
    (Except.ok a : Except Unit α).map f = .ok (f a) := rfl

theorem emap_err {α β : Type} (f : α → β) :
    (Except.error () : Except Unit α).map f = .error () := rfl

/-! ### The travel-time model: claims C3 and C4 -/

/-- Helper: `√625 = 25`. -/
theorem sqrt_625 : Real.sqrt 625 = 25 := by
  rw [show (625 : ℝ) = 25 ^ 2 by norm_num, Real.sqrt_sq (by norm_num)]

/-- C4: for every pair of coordinates and every bonus level, calling the
travel-time function with speed `0` does NOT return the positive-infinity
sentinel: it raises `ZeroDivisionError` (the `try`/`except` of the source
guards only the `float(...)` conversions, not the divisions), refuting
the claimed never-a-divide-by-zero-fault behaviour. -/
theorem C4_zero_speed_raises (x1 y1 x2 y2 ts : ℚ) :
    ts_travel_hours x1 y1 x2 y2 0 ts = .error () := by
  unfold ts_travel_hours
  simp only []
  split
  · simp [pydivQI]
  · simp [pydiv, ebind_err]

/-- C3 (counterexample): at distance 25 (coordinates `(0,0)` and
`(15,20)`), speed 10, bonus level 1, the code returns
`2 + 5/(10·1.1) = 27/11 ≈ 2.4545 h`, not the claimed
`2 + 5/(10·1.2) = 29/12 ≈ 2.4167 h`: the code's far-leg boost is
`+10 %` per level, not the claimed `0.2` bonus rate. -/
theorem C3_example_counterexample :
    (ts_travel_hours 0 0 15 20 10 1).map QI.toReal = .ok (27 / 11) ∧
      (27 / 11 : ℝ) ≠ 29 / 12 := by
  constructor
  · have h1 : ts_travel_hours 0 0 15 20 10 1 = .ok ⟨1 / 11, 625, 2 / 11⟩ := by
      norm_num [ts_travel_hours, pydiv, pydivQI, ebind_ok]
    rw [h1, emap_ok]
    have h2 : QI.toReal ⟨1 / 11, 625, 2 / 11⟩ = 27 / 11 := by
      unfold QI.toReal
      push_cast
      rw [sqrt_625]
      norm_num
    rw [h2]
  · norm_num

/-- C3 (amended): travel splits into a near leg of up to 20 tiles at base
speed plus a far leg at speed boosted by `(1 + 0.1 × bonusLevel)` — a
`10 %` (not `20 %`) boost per level; only the near-leg formula applies
when the total distance is at most 20; at distance 25, speed 10, bonus
level 1 the total is `2 + 5/11 = 27/11 ≈ 2.4545 h`. -/
theorem C3_travel_legs (x1 y1 x2 y2 speed ts : ℚ) (hs : speed ≠ 0) :
    ((x1 - x2) ^ 2 + (y1 - y2) ^ 2 ≤ 400 →
      (ts_travel_hours x1 y1 x2 y2 speed ts).map QI.toReal =
        .ok (Real.sqrt (((x1 - x2) ^ 2 + (y1 - y2) ^ 2 : ℚ) : ℝ) / (speed : ℝ))) ∧
    (¬ (x1 - x2) ^ 2 + (y1 - y2) ^ 2 ≤ 400 → speed * (1 + 0.1 * ts) ≠ 0 →
      (ts_travel_hours x1 y1 x2 y2 speed ts).map QI.toReal =
        .ok (20 / (speed : ℝ) +
          (Real.sqrt (((x1 - x2) ^ 2 + (y1 - y2) ^ 2 : ℚ) : ℝ) - 20) /
            ((speed : ℝ) * (1 + 0.1 * (ts : ℝ))))) ∧
    (ts_travel_hours 0 0 15 20 10 1).map QI.toReal = .ok (27 / 11) := by
  refine ⟨?_, ?_, ?_⟩
  · intro hle
    unfold ts_travel_hours
    simp only []
    rw [if_pos hle]
    unfold pydivQI
    rw [if_neg hs, emap_ok]
    unfold QI.toReal
    push_cast
    have hs' : (speed : ℝ) ≠ 0 := by exact_mod_cast hs
    field_simp
  · intro hgt hk
    unfold ts_travel_hours
    simp only []
    rw [if_neg hgt]
    unfold pydiv pydivQI
    rw [if_neg hs, ebind_ok, if_neg hk, ebind_ok, emap_ok]
    unfold QI.toReal
    have hs' : (speed : ℝ) ≠ 0 := by exact_mod_cast hs
    have hcast : ((speed * (1 + 0.1 * ts) : ℚ) : ℝ) = (speed : ℝ) * (1 + 0.1 * (ts : ℝ)) := by
      push_cast
      norm_num
    have hk' : (speed : ℝ) * (1 + 0.1 * (ts : ℝ)) ≠ 0 := by
      rw [← hcast]
      exact_mod_cast hk
    push_cast
    field_simp
    ring
  · have h1 : ts_travel_hours 0 0 15 20 10 1 = .ok ⟨1 / 11, 625, 2 / 11⟩ := by
      norm_num [ts_travel_hours, pydiv, pydivQI, ebind_ok]
    rw [h1, emap_ok]
    have h2 : QI.toReal ⟨1 / 11, 625, 2 / 11⟩ = 27 / 11 := by
      unfold QI.toReal
      push_cast
      rw [sqrt_625]
      norm_num
    rw [h2]

/-! ### Compatibility predicates: claims C7 and C8 -/

/-- C7: over the recognised target categories, `off_compat` holds exactly
for small-force/small-target, large-force/(large-or-small)-target, or a
unique-typed force, and `pickup_compat` holds exactly when the treasury
level is at least 20 or the level is below 20 and the target is small. -/
theorem C7_compat_tables :
    (∀ ot arti, arti ∈ VALID_TYPES →
      (off_compat ot arti = true ↔
        (normalize_off_type ot = "small" ∧ arti = "small") ∨
          (normalize_off_type ot = "large" ∧ (arti = "large" ∨ arti = "small")) ∨
            normalize_off_type ot = "unique")) ∧
    (∀ (t : ℤ) arti, arti ∈ VALID_TYPES →
      (pickup_compat t arti = true ↔ 20 ≤ t ∨ (t < 20 ∧ arti = "small"))) := by
  constructor
  · intro ot arti _hmem
    by_cases h1 : normalize_off_type ot = "small"
    · simp [off_compat, h1]
    · by_cases h2 : normalize_off_type ot = "large"
      · simp [off_compat, h1, h2]
      · by_cases h3 : normalize_off_type ot = "unique"
        · simp [off_compat, h1, h2, h3]
        · simp [off_compat, h1, h2, h3]
  · intro t arti _hmem
    by_cases ht : t < 20
    · simp only [pickup_compat, if_pos ht, beq_iff_eq]
      constructor
      · intro h
        exact Or.inr ⟨ht, h⟩
      · rintro (h | ⟨_, h⟩)
        · omega
        · exact h
    · simp only [pickup_compat, if_neg ht]
      constructor
      · intro _
        exact Or.inl (by omega)
      · intro _
        trivial

/-- C8 (counterexample): an unrecognised target-category string is NOT
incompatible with everything — a unique-typed strike force and an
at-or-above-threshold carrier both accept it. -/
theorem C8_fail_closed_counterexample :
    off_compat "unique" "weird" = true ∧ pickup_compat 25 "weird" = true := by
  exact ⟨rfl, rfl⟩

/-- C8 (amended): both predicates are pure; an unrecognised *force*
category is incompatible with everything, and small-typed forces,
large-typed forces, and below-threshold carriers reject unrecognised
target categories; but a unique-typed force or an at-or-above-threshold
carrier accepts every target string, recognised or not. -/
theorem C8_fail_closed_amended :
    (∀ ot arti, normalize_off_type ot ∉ VALID_TYPES → off_compat ot arti = false) ∧
    (∀ ot arti, normalize_off_type ot = "small" → arti ≠ "small" →
      off_compat ot arti = false) ∧
    (∀ ot arti, normalize_off_type ot = "large" → arti ≠ "small" → arti ≠ "large" →
      off_compat ot arti = false) ∧
    (∀ ot arti, normalize_off_type ot = "unique" → off_compat ot arti = true) ∧
    (∀ (t : ℤ) arti, t < 20 → arti ≠ "small" → pickup_compat t arti = false) ∧
    (∀ (t : ℤ) arti, 20 ≤ t → pickup_compat t arti = true) := by
  refine ⟨?_, ?_, ?_, ?_, ?_, ?_⟩
  · intro ot arti hmem
    simp only [VALID_TYPES, List.mem_cons, List.not_mem_nil, or_false, not_or] at hmem
    simp [off_compat, hmem.1, hmem.2.1, hmem.2.2]
  · intro ot arti h1 h2
    simp [off_compat, h1, h2]
  · intro ot arti h1 h2 h3
    have hns : normalize_off_type ot ≠ "small" := by
      rw [h1]
      decide
    simp [off_compat, h1, hns, h2, h3]
  · intro ot arti h1
    have hns : normalize_off_type ot ≠ "small" := by
      rw [h1]
      decide
    have hnl : normalize_off_type ot ≠ "large" := by
      rw [h1]
      decide
    simp [off_compat, h1, hns, hnl]
  · intro t arti ht h
    simp [pickup_compat, ht, h]
  · intro t arti ht
    simp [pickup_compat, show ¬ t < 20 by omega]

/-! ### The priority classifier: claim C6 -/

/-- C6: the classifier is total with range
`{(1,0),(2,0),(2,1),(2,2),(2,3),(3,0),(4,0)}`; unique-marked inputs get
`(1,0)`; the special sub-kinds get, in order, `(2,0)`–`(2,3)`
(trainer, diet, boots, eyes); plan/blueprint inputs get `(3,0)`; inputs
matching no keyword fall into the catch-all `(4,0)` (no error); and the
tiers are strictly increasing in that order. -/
theorem C6_priority_classifier :
    (∀ n t, priority_key n t ∈ [(1, 0), (2, 0), (2, 1), (2, 2), (2, 3), (3, 0), (4, 0)]) ∧
    (∀ n t,
      (pylower t == "unique" || pyin "unique" (pylower n) || pyin "einzig" (pylower n)) = true →
      priority_key n t = (1, 0)) ∧
    (∀ n t,
      (pylower t == "unique" || pyin "unique" (pylower n) || pyin "einzig" (pylower n)) = false →
      (["trainer", "ausbilder"].any fun k => pyin k (pylower n)) = true →
      priority_key n t = (2, 0)) ∧
    (∀ n t,
      (pylower t == "unique" || pyin "unique" (pylower n) || pyin "einzig" (pylower n)) = false →
      (["trainer", "ausbilder"].any fun k => pyin k (pylower n)) = false →
      (["diet", "getreide", "hunger"].any fun k => pyin k (pylower n)) = true →
      priority_key n t = (2, 1)) ∧
    (∀ n t,
      (pylower t == "unique" || pyin "unique" (pylower n) || pyin "einzig" (pylower n)) = false →
      (["trainer", "ausbilder"].any fun k => pyin k (pylower n)) = false →
      (["diet", "getreide", "hunger"].any fun k => pyin k (pylower n)) = false →
      (["boots", "stiefel", "schnellere truppen"].any fun k => pyin k (pylower n)) = true →
      priority_key n t = (2, 2)) ∧
    (∀ n t,
      (pylower t == "unique" || pyin "unique" (pylower n) || pyin "einzig" (pylower n)) = false →
      (["trainer", "ausbilder"].any fun k => pyin k (pylower n)) = false →
      (["diet", "getreide", "hunger"].any fun k => pyin k (pylower n)) = false →
      (["boots", "stiefel", "schnellere truppen"].any fun k => pyin k (pylower n)) = false →
      (["eyes", "auge", "spÃ¤her", "scout", "spaeher"].any fun k => pyin k (pylower n)) = true →
      priority_key n t = (2, 3)) ∧
    (∀ n t,
      (pylower t == "unique" || pyin "unique" (pylower n) || pyin "einzig" (pylower n)) = false →
      (["trainer", "ausbilder"].any fun k => pyin k (pylower n)) = false →
      (["diet", "getreide", "hunger"].any fun k => pyin k (pylower n)) = false →
      (["boots", "stiefel", "schnellere truppen"].any fun k => pyin k (pylower n)) = false →
      (["eyes", "auge", "spÃ¤her", "scout", "spaeher"].any fun k => pyin k (pylower n)) = false →
      (["plan", "bauplan", "great warehouse", "lager", "granary", "blueprint",
        "weltwunder"].any fun k => pyin k (pylower n)) = true →
      priority_key n t = (3, 0)) ∧
    (∀ n t,
      (pylower t == "unique" || pyin "unique" (pylower n) || pyin "einzig" (pylower n)) = false →
      (["trainer", "ausbilder"].any fun k => pyin k (pylower n)) = false →
      (["diet", "getreide", "hunger"].any fun k => pyin k (pylower n)) = false →
      (["boots", "stiefel", "schnellere truppen"].any fun k => pyin k (pylower n)) = false →
      (["eyes", "auge", "spÃ¤her", "scout", "spaeher"].any fun k => pyin k (pylower n)) = false →
      (["plan", "bauplan", "great warehouse", "lager", "granary", "blueprint",
        "weltwunder"].any fun k => pyin k (pylower n)) = false →
      priority_key n t = (4, 0)) ∧
    (pkLt (priority_key "x" "unique") (priority_key "Trainer" "small") ∧
      pkLt (priority_key "Trainer" "small") (priority_key "Diet" "small") ∧
      pkLt (priority_key "Diet" "small") (priority_key "Boots" "small") ∧
      pkLt (priority_key "Boots" "small") (priority_key "Eyes" "small") ∧
      pkLt (priority_key "Eyes" "small") (priority_key "Plan" "small") ∧
      pkLt (priority_key "Plan" "small") (priority_key "Gold" "small")) := by
  refine ⟨?_, ?_, ?_, ?_, ?_, ?_, ?_, ?_, ?_⟩
  · intro n t
    unfold priority_key
    simp only []
    repeat' split
    all_goals simp
  · intro n t h1
    simp [priority_key, h1]
  · intro n t h1 h2
    simp [priority_key, h1, h2]
  · intro n t h1 h2 h3
    simp [priority_key, h1, h2, h3]
  · intro n t h1 h2 h3 h4
    simp [priority_key, h1, h2, h3, h4]
  · intro n t h1 h2 h3 h4 h5
    simp [priority_key, h1, h2, h3, h4, h5]
  · intro n t h1 h2 h3 h4 h5 h6
    simp [priority_key, h1, h2, h3, h4, h5, h6]
  · intro n t h1 h2 h3 h4 h5 h6
    simp [priority_key, h1, h2, h3, h4, h5, h6]
  · refine ⟨?_, ?_, ?_, ?_, ?_, ?_⟩ <;> decide

/-! ### The target sort: claim C5 -/

/-- Keys strictly below a key `k` are not equal to `k`. -/
theorem key_ne_of_not_tarLe {a b : TarRow} (h : ¬ tarLe a b) (ha : tarKey a = k) :
    tarKey b ≠ k := by
  intro hb
  apply h
  unfold tarLe
  rw [ha, hb]
  omega

/-- Inserting an element with key `k` puts it in front of the equal-key
elements already present. -/
theorem filter_orderedInsert_eq (a : TarRow) (k : ℕ × ℕ) (ha : tarKey a = k) :
    ∀ l : List TarRow,
      (List.orderedInsert tarLe a l).filter (fun t => decide (tarKey t = k)) =
        a :: l.filter (fun t => decide (tarKey t = k))
  | [] => by simp [List.orderedInsert, ha]
  | b :: l => by
    by_cases h : tarLe a b
    · rw [List.orderedInsert, if_pos h]
      simp [List.filter_cons, ha]
    · rw [List.orderedInsert, if_neg h]
      have hb : tarKey b ≠ k := key_ne_of_not_tarLe h ha
      simp only [List.filter_cons]
      rw [if_neg (by simpa using hb), if_neg (by simpa using hb),
        filter_orderedInsert_eq a k ha l]

/-- Inserting an element whose key is not `k` leaves the key-`k`
subsequence unchanged. -/
theorem filter_orderedInsert_ne (a : TarRow) (k : ℕ × ℕ) (ha : tarKey a ≠ k) :
    ∀ l : List TarRow,
      (List.orderedInsert tarLe a l).filter (fun t => decide (tarKey t = k)) =
        l.filter (fun t => decide (tarKey t = k))
  | [] => by simp [List.orderedInsert, ha]
  | b :: l => by
    by_cases h : tarLe a b
    · rw [List.orderedInsert, if_pos h]
      simp [List.filter_cons, ha]
    · rw [List.orderedInsert, if_neg h]
      simp only [List.filter_cons]
      rw [filter_orderedInsert_ne a k ha l]

/-- Stability of the target sort: the subsequence of any fixed priority
key is preserved. -/
theorem filter_sortTargets (k : ℕ × ℕ) :
    ∀ l : List TarRow,
      (sortTargets l).filter (fun t => decide (tarKey t = k)) =
        l.filter (fun t => decide (tarKey t = k))
  | [] => rfl
  | a :: l => by
    have ih := filter_sortTargets k l
    unfold sortTargets at ih
    unfold sortTargets List.insertionSort
    by_cases ha : tarKey a = k
    · rw [filter_orderedInsert_eq a k ha, ih]
      simp [List.filter_cons, ha]
    · rw [filter_orderedInsert_ne a k ha, ih]
      simp [List.filter_cons, ha]

/-- C5: the queue `create_plan` folds over is exactly
`sortTargets TARGETS`, and that order is nondecreasing in the
`(tier, subtier)` priority key, a permutation of the input targets, and
stable: targets with equal priority keys keep their original relative
input order (pandas' two-key `sort_values` is `numpy.lexsort`, a stable
sort). -/
theorem C5_stable_priority_order :
    (∀ tb : Tables, create_plan tb =
      (runTargets (tb.OFFS.map normOff) (tb.PICKUPS.map normPick) (sortTargets tb.TARGETS)
        ⟨tb.CATTAS.map normCat, [], [], [], []⟩).map fun st => (st.planned, st.unplanned)) ∧
    (∀ tars : List TarRow, List.Sorted tarLe (sortTargets tars)) ∧
    (∀ tars : List TarRow, List.Perm (sortTargets tars) tars) ∧
    (∀ (tars : List TarRow) (k : ℕ × ℕ),
      (sortTargets tars).filter (fun t => decide (tarKey t = k)) =
        tars.filter (fun t => decide (tarKey t = k))) := by
  refine ⟨?_, ?_, ?_, ?_⟩
  · intro tb
    rfl
  · intro tars
    exact List.sorted_insertionSort tarLe tars
  · intro tars
    exact List.perm_insertionSort tarLe tars
  · intro tars k
    exact filter_sortTargets k tars

/-! ### Engine lemmas: absence of `ZeroDivisionError` under the §6
contract (positive speed would do; nonzero speed and nonnegative bonus
level suffice) -/

theorem ts_ok (x1 y1 x2 y2 speed ts : ℚ) (hs : speed ≠ 0) (hts : 0 ≤ ts) :
    ∃ q, ts_travel_hours x1 y1 x2 y2 speed ts = .ok q := by
  have h1 : (0 : ℚ) < 1 + 0.1 * ts := by nlinarith
  have hk : speed * (1 + 0.1 * ts) ≠ 0 := mul_ne_zero hs (ne_of_gt h1)
  unfold ts_travel_hours
  simp only []
  split
  · exact ⟨_, by unfold pydivQI; rw [if_neg hs]⟩
  · exact ⟨_, by unfold pydiv pydivQI; rw [if_neg hs, ebind_ok, if_neg hk, ebind_ok]⟩

theorem scanOffAux_ok (typ : String) (tx ty : ℚ) (used : List ℕ) :
    ∀ (L : List OffRow), (∀ o ∈ L, SafeRow o.Speed o.TS) →
      ∀ (i : ℕ) (best : Option (ℕ × OffRow × QI)),
        ∃ r, scanOffAux typ tx ty used i L best = .ok r
  | [], _, i, best => ⟨best, rfl⟩
  | o :: L, hL, i, best => by
    have ho := hL o (List.mem_cons_self o L)
    have hL' : ∀ o' ∈ L, SafeRow o'.Speed o'.TS := fun o' h =>
      hL o' (List.mem_cons_of_mem _ h)
    unfold scanOffAux
    split
    · exact scanOffAux_ok typ tx ty used L hL' _ _
    split
    · exact scanOffAux_ok typ tx ty used L hL' _ _
    cases hx : o.coord_x with
    | none => exact scanOffAux_ok typ tx ty used L hL' _ _
    | some ox =>
      cases hy : o.coord_y with
      | none => exact scanOffAux_ok typ tx ty used L hL' _ _
      | some oy =>
        obtain ⟨q, hq⟩ := ts_ok ox oy tx ty o.Speed o.TS ho.1 ho.2
        dsimp only
        rw [hq, ebind_ok]
        split
        · exact scanOffAux_ok typ tx ty used L hL' _ _
        · exact scanOffAux_ok typ tx ty used L hL' _ _

theorem scanCatAux_ok (tx ty : ℚ) :
    ∀ (L : List CatRow), (∀ c ∈ L, SafeRow c.Speed c.TS) →
      ∀ (i : ℕ) (best : Option (ℕ × CatRow × QI)),
        ∃ r, scanCatAux tx ty i L best = .ok r
  | [], _, i, best => ⟨best, rfl⟩
  | c :: L, hL, i, best => by
    have hc := hL c (List.mem_cons_self c L)
    have hL' : ∀ c' ∈ L, SafeRow c'.Speed c'.TS := fun c' h =>
      hL c' (List.mem_cons_of_mem _ h)
    unfold scanCatAux
    split
    · exact scanCatAux_ok tx ty L hL' _ _
    cases hx : c.coord_x with
    | none => exact scanCatAux_ok tx ty L hL' _ _
    | some cx =>
      cases hy : c.coord_y with
      | none => exact scanCatAux_ok tx ty L hL' _ _
      | some cy =>
        obtain ⟨q, hq⟩ := ts_ok cx cy tx ty c.Speed c.TS hc.1 hc.2
        dsimp only
        rw [hq, ebind_ok]
        split
        · exact scanCatAux_ok tx ty L hL' _ _
        · exact scanCatAux_ok tx ty L hL' _ _

theorem scanPickAux_ok (typ : String) (tx ty : ℚ) (used : List ℕ) :
    ∀ (L : List PickRow), (∀ p ∈ L, SafeRow p.Speed p.TS) →
      ∀ (i : ℕ) (best : Option (ℕ × PickRow × QI)),
        ∃ r, scanPickAux typ tx ty used i L best = .ok r
  | [], _, i, best => ⟨best, rfl⟩
  | p :: L, hL, i, best => by
    have hp := hL p (List.mem_cons_self p L)
    have hL' : ∀ p' ∈ L, SafeRow p'.Speed p'.TS := fun p' h =>
      hL p' (List.mem_cons_of_mem _ h)
    unfold scanPickAux
    split
    · exact scanPickAux_ok typ tx ty used L hL' _ _
    split
    · exact scanPickAux_ok typ tx ty used L hL' _ _
    cases hx : p.coord_x with
    | none => exact scanPickAux_ok typ tx ty used L hL' _ _
    | some px =>
      cases hy : p.coord_y with
      | none => exact scanPickAux_ok typ tx ty used L hL' _ _
      | some py =>
        obtain ⟨q, hq⟩ := ts_ok px py tx ty p.Speed p.TS hp.1 hp.2
        dsimp only
        rw [hq, ebind_ok]
        split
        · exact scanPickAux_ok typ tx ty used L hL' _ _
        · exact scanPickAux_ok typ tx ty used L hL' _ _

/-! ### Engine lemmas: what a successful scan guarantees -/

theorem scanOffAux_some (typ : String) (tx ty : ℚ) (used : List ℕ) :
    ∀ (L : List OffRow) (i : ℕ) (best : Option (ℕ × OffRow × QI))
      (j : ℕ) (o : OffRow) (e : QI),
      scanOffAux typ tx ty used i L best = .ok (some (j, o, e)) →
      j ∉ used ∨ best = some (j, o, e)
  | [], i, best, j, o, e => by
    intro h
    unfold scanOffAux at h
    exact Or.inr (by injection h)
  | o' :: L, i, best, j, o, e => by
    intro h
    unfold scanOffAux at h
    split at h
    · exact scanOffAux_some typ tx ty used L _ _ _ _ _ h
    split at h
    · exact scanOffAux_some typ tx ty used L _ _ _ _ _ h
    rename_i hused _
    cases hx : o'.coord_x with
    | none =>
      rw [hx] at h
      exact scanOffAux_some typ tx ty used L _ _ _ _ _ h
    | some ox =>
      cases hy : o'.coord_y with
      | none =>
        rw [hx, hy] at h
        exact scanOffAux_some typ tx ty used L _ _ _ _ _ h
      | some oy =>
        rw [hx, hy] at h
        dsimp only at h
        cases hts : ts_travel_hours ox oy tx ty o'.Speed o'.TS with
        | error u =>
          rw [hts] at h
          cases u
          rw [ebind_err] at h
          cases h
        | ok q =>
          rw [hts, ebind_ok] at h
          split at h
          · rcases scanOffAux_some typ tx ty used L _ _ _ _ _ h with h' | h'
            · exact Or.inl h'
            · have h2 : (i, o', q) = (j, o, e) := by injection h'
              have hij : i = j := congrArg (fun z => z.1) h2
              refine Or.inl ?_
              rw [← hij]
              exact hused
          · exact scanOffAux_some typ tx ty used L _ _ _ _ _ h

theorem scanPickAux_some (typ : String) (tx ty : ℚ) (used : List ℕ) :
    ∀ (L : List PickRow) (i : ℕ) (best : Option (ℕ × PickRow × QI))
      (j : ℕ) (p : PickRow) (e : QI),
      scanPickAux typ tx ty used i L best = .ok (some (j, p, e)) →
      j ∉ used ∨ best = some (j, p, e)
  | [], i, best, j, p, e => by
    intro h
    unfold scanPickAux at h
    exact Or.inr (by injection h)
  | p' :: L, i, best, j, p, e => by
    intro h
    unfold scanPickAux at h
    split at h
    · exact scanPickAux_some typ tx ty used L _ _ _ _ _ h
    split at h
    · exact scanPickAux_some typ tx ty used L _ _ _ _ _ h
    rename_i hused _
    cases hx : p'.coord_x with
    | none =>
      rw [hx] at h
      exact scanPickAux_some typ tx ty used L _ _ _ _ _ h
    | some px =>
      cases hy : p'.coord_y with
      | none =>
        rw [hx, hy] at h
        exact scanPickAux_some typ tx ty used L _ _ _ _ _ h
      | some py =>
        rw [hx, hy] at h
        dsimp only at h
        cases hts : ts_travel_hours px py tx ty p'.Speed p'.TS with
        | error u =>
          rw [hts] at h
          cases u
          rw [ebind_err] at h
          cases h
        | ok q =>
          rw [hts, ebind_ok] at h
          split at h
          · rcases scanPickAux_some typ tx ty used L _ _ _ _ _ h with h' | h'
            · exact Or.inl h'
            · have h2 : (i, p', q) = (j, p, e) := by injection h'
              have hij : i = j := congrArg (fun z => z.1) h2
              refine Or.inl ?_
              rw [← hij]
              exact hused
          · exact scanPickAux_some typ tx ty used L _ _ _ _ _ h

theorem scanCatAux_some (tx ty : ℚ) :
    ∀ (L : List CatRow) (i : ℕ) (best : Option (ℕ × CatRow × QI))
      (j : ℕ) (c : CatRow) (e : QI),
      scanCatAux tx ty i L best = .ok (some (j, c, e)) →
      (i ≤ j ∧ j - i < L.length ∧ L.get? (j - i) = some c ∧ 0 < c.UsesLeft.getD 0) ∨
        best = some (j, c, e)
  | [], i, best, j, c, e => by
    intro h
    unfold scanCatAux at h
    exact Or.inr (by injection h)
  | c' :: L, i, best, j, c, e => by
    intro h
    have lift :
        (i + 1 ≤ j ∧ j - (i + 1) < L.length ∧ L.get? (j - (i + 1)) = some c ∧
            0 < c.UsesLeft.getD 0) →
          i ≤ j ∧ j - i < (c' :: L).length ∧ (c' :: L).get? (j - i) = some c ∧
            0 < c.UsesLeft.getD 0 := by
      rintro ⟨h1, h2, h3, h4⟩
      refine ⟨by omega, by simp; omega, ?_, h4⟩
      have hji : j - i = (j - (i + 1)) + 1 := by omega
      rw [hji]
      simpa using h3
    unfold scanCatAux at h
    split at h
    · rcases scanCatAux_some tx ty L _ _ _ _ _ h with h' | h'
      · exact Or.inl (lift h')
      · exact Or.inr h'
    rename_i hpos
    cases hx : c'.coord_x with
    | none =>
      rw [hx] at h
      rcases scanCatAux_some tx ty L _ _ _ _ _ h with h' | h'
      · exact Or.inl (lift h')
      · exact Or.inr h'
    | some cx =>
      cases hy : c'.coord_y with
      | none =>
        rw [hx, hy] at h
        rcases scanCatAux_some tx ty L _ _ _ _ _ h with h' | h'
        · exact Or.inl (lift h')
        · exact Or.inr h'
      | some cy =>
        rw [hx, hy] at h
        dsimp only at h
        cases hts : ts_travel_hours cx cy tx ty c'.Speed c'.TS with
        | error u =>
          rw [hts] at h
          cases u
          rw [ebind_err] at h
          cases h
        | ok q =>
          rw [hts, ebind_ok] at h
          split at h
          · rcases scanCatAux_some tx ty L _ _ _ _ _ h with h' | h'
            · exact Or.inl (lift h')
            · have h2 : (i, c', q) = (j, c, e) := by injection h'
              have hij : i = j := congrArg (fun z => z.1) h2
              have hcc : c' = c := congrArg (fun z => z.2.1) h2
              refine Or.inl ⟨by omega, by simp [← hij], ?_, ?_⟩
              · rw [← hij]
                simpa using hcc
              · rw [← hcc]
                omega
          · rcases scanCatAux_some tx ty L _ _ _ _ _ h with h' | h'
            · exact Or.inl (lift h')
            · exact Or.inr h'

/-! ### Engine lemmas: the two possible outcomes of one target step -/

/-- Every successful target step either appends exactly one `unplanned`
row (leaving everything else unchanged) or reserves one OFF, one CATA
use and one PICKUP found by the three scans and appends exactly one
`planned` row. -/
theorem tarStep_cases (offs : List OffRow) (pics : List PickRow) (st : PSt) (t : TarRow)
    (st' : PSt) (h : tarStep offs pics st t = .ok st') :
    (∃ r, st' = { st with unplanned := st.unplanned ++ [⟨t.Artefact, r⟩] }) ∨
    (∃ oIdx oRow oEta cIdx cRow cEta pIdx pRow pEta tx ty,
      t.coord_x = some tx ∧ t.coord_y = some ty ∧
      scanOffAux (pylower t.Typ) tx ty st.usedOff 0 offs none = .ok (some (oIdx, oRow, oEta)) ∧
      scanCatAux tx ty 0 st.cats none = .ok (some (cIdx, cRow, cEta)) ∧
      scanPickAux (pylower t.Typ) tx ty st.usedPick 0 pics none = .ok (some (pIdx, pRow, pEta)) ∧
      st' = { st with
        cats := st.cats.set cIdx { cRow with UsesLeft := some (cRow.UsesLeft.getD 0 - 1) }
        usedOff := st.usedOff ++ [oIdx]
        usedPick := st.usedPick ++ [pIdx]
        planned := st.planned ++
          [⟨t.Artefact, pylower t.Typ, pyint tx, pyint ty, oRow.Name, oEta, cRow.Name, cEta,
            pRow.Name, pEta, QI.pymax (QI.pymax oEta cEta) pEta, oIdx, cIdx, pIdx⟩] }) := by
  unfold tarStep at h
  dsimp only at h
  by_cases hvt : pylower t.Typ ∈ VALID_TYPES
  · rw [if_pos hvt] at h
    cases hx : t.coord_x with
    | none =>
      rw [hx] at h
      cases hy : t.coord_y with
      | none =>
        dsimp only at h
        exact Or.inl ⟨"Missing coordinates", by injection h with h2; exact h2.symm⟩
      | some ty =>
        rw [hy] at h
        dsimp only at h
        exact Or.inl ⟨"Missing coordinates", by injection h with h2; exact h2.symm⟩
    | some tx =>
      rw [hx] at h
      cases hy : t.coord_y with
      | none =>
        rw [hy] at h
        dsimp only at h
        exact Or.inl ⟨"Missing coordinates", by injection h with h2; exact h2.symm⟩
      | some ty =>
        rw [hy] at h
        dsimp only at h
        cases hbo : scanOffAux (pylower t.Typ) tx ty st.usedOff 0 offs none with
        | error u =>
          rw [hbo] at h
          cases u
          rw [ebind_err] at h
          cases h
        | ok bo =>
          rw [hbo, ebind_ok] at h
          cases bo with
          | none => exact Or.inl ⟨"No compatible OFF", by injection h with h2; exact h2.symm⟩
          | some trip =>
            obtain ⟨oIdx, oRow, oEta⟩ := trip
            dsimp only at h
            cases hbc : scanCatAux tx ty 0 st.cats none with
            | error u =>
              rw [hbc] at h
              cases u
              rw [ebind_err] at h
              cases h
            | ok bc =>
              rw [hbc, ebind_ok] at h
              cases bc with
              | none => exact Or.inl ⟨"No CATA with uses left", by injection h with h2; exact h2.symm⟩
              | some trip2 =>
                obtain ⟨cIdx, cRow, cEta⟩ := trip2
                dsimp only at h
                cases hbp : scanPickAux (pylower t.Typ) tx ty st.usedPick 0 pics none with
                | error u =>
                  rw [hbp] at h
                  cases u
                  rw [ebind_err] at h
                  cases h
                | ok bp =>
                  rw [hbp, ebind_ok] at h
                  cases bp with
                  | none => exact Or.inl ⟨"No compatible PICKUP (treasury)", by injection h with h2; exact h2.symm⟩
                  | some trip3 =>
                    obtain ⟨pIdx, pRow, pEta⟩ := trip3
                    dsimp only at h
                    refine Or.inr ⟨oIdx, oRow, oEta, cIdx, cRow, cEta, pIdx, pRow, pEta,
                      tx, ty, rfl, rfl, hbo, hbc, hbp, ?_⟩
                    injection h with h2
                    exact h2.symm
  · rw [if_neg hvt] at h
    exact Or.inl ⟨"Invalid type", by injection h with h2; exact h2.symm⟩

/-! ### Resource-usage counting and the capacity invariant (claim C2) -/

theorem offUses_append (j : ℕ) (p : List PlanEntry) (e : PlanEntry) :
    offUses j (p ++ [e]) = offUses j p + (if e.offIdx = j then 1 else 0) := by
  unfold offUses
  rw [List.countP_append]
  simp [List.countP_cons]

theorem pickUses_append (j : ℕ) (p : List PlanEntry) (e : PlanEntry) :
    pickUses j (p ++ [e]) = pickUses j p + (if e.pickIdx = j then 1 else 0) := by
  unfold pickUses
  rw [List.countP_append]
  simp [List.countP_cons]

theorem catUses_append (j : ℕ) (p : List PlanEntry) (e : PlanEntry) :
    catUses j (p ++ [e]) = catUses j p + (if e.catIdx = j then 1 else 0) := by
  unfold catUses
  rw [List.countP_append]
  simp [List.countP_cons]

theorem usesAt_of_get? {l : List CatRow} {j : ℕ} {c : CatRow} (h : l.get? j = some c) :
    usesAt l j = c.UsesLeft.getD 0 := by
  unfold usesAt
  rw [h]

theorem usesAt_set_eq (l : List CatRow) (j : ℕ) (c : CatRow) (h : j < l.length) :
    usesAt (l.set j c) j = c.UsesLeft.getD 0 := by
  unfold usesAt
  rw [List.get?_set_eq_of_lt c h]

theorem usesAt_set_ne (l : List CatRow) (i j : ℕ) (c : CatRow) (h : i ≠ j) :
    usesAt (l.set i c) j = usesAt l j := by
  unfold usesAt
  rw [List.get?_set_ne c l h]

theorem tarStep_inv {cats0 : List CatRow} {offs : List OffRow} {pics : List PickRow}
    {st : PSt} {t : TarRow} {st' : PSt}
    (h : tarStep offs pics st t = .ok st') (inv : EngineInv cats0 st) :
    EngineInv cats0 st' := by
  rcases tarStep_cases offs pics st t st' h with ⟨r, rfl⟩ |
    ⟨oIdx, oRow, oEta, cIdx, cRow, cEta, pIdx, pRow, pEta, tx, ty, hx, hy, hbo, hbc, hbp, rfl⟩
  · exact ⟨inv.offB, inv.pickB, inv.catB, inv.catNN⟩
  · have husedO : oIdx ∉ st.usedOff := by
      rcases scanOffAux_some _ tx ty _ offs 0 none oIdx oRow oEta hbo with h' | h'
      · exact h'
      · cases h'
    have husedP : pIdx ∉ st.usedPick := by
      rcases scanPickAux_some _ tx ty _ pics 0 none pIdx pRow pEta hbp with h' | h'
      · exact h'
      · cases h'
    have hcat : cIdx < st.cats.length ∧ st.cats.get? cIdx = some cRow ∧
        0 < cRow.UsesLeft.getD 0 := by
      rcases scanCatAux_some tx ty st.cats 0 none cIdx cRow cEta hbc with h' | h'
      · obtain ⟨-, h2, h3, h4⟩ := h'
        simp only [Nat.sub_zero] at h2 h3
        exact ⟨h2, h3, h4⟩
      · cases h'
    obtain ⟨hlen, hget, hpos⟩ := hcat
    constructor
    · intro j
      rw [offUses_append]
      dsimp only
      by_cases hj : oIdx = j
      · subst hj
        have h0 := inv.offB oIdx
        rw [if_neg husedO] at h0
        have : offUses oIdx st.planned = 0 := by omega
        simp [this, List.mem_append]
      · have h0 := inv.offB j
        rw [if_neg hj]
        by_cases hjm : j ∈ st.usedOff
        · rw [if_pos hjm] at h0
          rw [if_pos (by simp [List.mem_append, hjm])]
          omega
        · rw [if_neg hjm] at h0
          rw [if_neg (by simp [List.mem_append, hjm, Ne.symm hj])]
          omega
    · intro j
      rw [pickUses_append]
      dsimp only
      by_cases hj : pIdx = j
      · subst hj
        have h0 := inv.pickB pIdx
        rw [if_neg husedP] at h0
        have : pickUses pIdx st.planned = 0 := by omega
        simp [this, List.mem_append]
      · have h0 := inv.pickB j
        rw [if_neg hj]
        by_cases hjm : j ∈ st.usedPick
        · rw [if_pos hjm] at h0
          rw [if_pos (by simp [List.mem_append, hjm])]
          omega
        · rw [if_neg hjm] at h0
          rw [if_neg (by simp [List.mem_append, hjm, Ne.symm hj])]
          omega
    · intro j
      rw [catUses_append]
      dsimp only
      by_cases hj : cIdx = j
      · subst hj
        rw [if_pos rfl, usesAt_set_eq _ _ _ hlen]
        have h0 := inv.catB cIdx
        rw [usesAt_of_get? hget] at h0
        simp only [Option.getD_some]
        omega
      · rw [if_neg hj, usesAt_set_ne _ _ _ _ hj]
        have h0 := inv.catB j
        omega
    · intro j
      rw [catUses_append]
      dsimp only
      by_cases hj : cIdx = j
      · subst hj
        intro _
        rw [usesAt_set_eq _ _ _ hlen]
        simp only [Option.getD_some]
        omega
      · rw [if_neg hj, usesAt_set_ne _ _ _ _ hj]
        intro hpos'
        exact inv.catNN j (by omega)

/-! ### Run-level lemmas -/

/-- Each successful step contributes the processed target's name exactly
once, to `planned` or to `unplanned`. -/
theorem tarStep_counts {offs : List OffRow} {pics : List PickRow} {st : PSt} {t : TarRow}
    {st' : PSt} (h : tarStep offs pics st t = .ok st') :
    List.Perm
      (st'.planned.map (fun e => e.Artefact) ++ st'.unplanned.map (fun e => e.Artefact))
      ((st.planned.map (fun e => e.Artefact) ++ st.unplanned.map (fun e => e.Artefact)) ++
        [t.Artefact]) := by
  rcases tarStep_cases offs pics st t st' h with ⟨r, rfl⟩ |
    ⟨oIdx, oRow, oEta, cIdx, cRow, cEta, pIdx, pRow, pEta, tx, ty, hx, hy, hbo, hbc, hbp, rfl⟩
  · dsimp only
    rw [List.map_append, ← List.append_assoc]
    simp only [List.map_cons, List.map_nil]
    exact List.Perm.refl _
  · dsimp only
    rw [List.map_append, List.append_assoc, List.append_assoc]
    simp only [List.map_cons, List.map_nil]
    exact List.Perm.append_left _ List.perm_append_comm

/-- A successful step keeps every CATA row's speed and bonus level. -/
theorem tarStep_safe {offs : List OffRow} {pics : List PickRow} {st : PSt} {t : TarRow}
    {st' : PSt} (h : tarStep offs pics st t = .ok st')
    (hc : ∀ c ∈ st.cats, SafeRow c.Speed c.TS) :
    ∀ c ∈ st'.cats, SafeRow c.Speed c.TS := by
  rcases tarStep_cases offs pics st t st' h with ⟨r, rfl⟩ |
    ⟨oIdx, oRow, oEta, cIdx, cRow, cEta, pIdx, pRow, pEta, tx, ty, hx, hy, hbo, hbc, hbp, rfl⟩
  · exact hc
  · intro c hmem
    dsimp only at hmem
    rcases List.mem_or_eq_of_mem_set hmem with hmem' | rfl
    · exact hc c hmem'
    · have hget : st.cats.get? cIdx = some cRow := by
        rcases scanCatAux_some tx ty st.cats 0 none cIdx cRow cEta hbc with h' | h'
        · simpa using h'.2.2.1
        · cases h'
      exact hc cRow (List.get?_mem hget)

/-- Under the §6 row contract the step never raises. -/
theorem tarStep_ok (offs : List OffRow) (pics : List PickRow) (st : PSt) (t : TarRow)
    (hoffs : ∀ o ∈ offs, SafeRow o.Speed o.TS)
    (hcats : ∀ c ∈ st.cats, SafeRow c.Speed c.TS)
    (hpics : ∀ p ∈ pics, SafeRow p.Speed p.TS) :
    ∃ st', tarStep offs pics st t = .ok st' := by
  unfold tarStep
  dsimp only
  by_cases hvt : pylower t.Typ ∈ VALID_TYPES
  · rw [if_pos hvt]
    cases hx : t.coord_x with
    | none => cases hy : t.coord_y <;> exact ⟨_, rfl⟩
    | some tx =>
      cases hy : t.coord_y with
      | none => exact ⟨_, rfl⟩
      | some ty =>
        dsimp only
        obtain ⟨bo, hbo⟩ := scanOffAux_ok (pylower t.Typ) tx ty st.usedOff offs hoffs 0 none
        rw [hbo, ebind_ok]
        cases bo with
        | none => exact ⟨_, rfl⟩
        | some trip =>
          obtain ⟨oIdx, oRow, oEta⟩ := trip
          dsimp only
          obtain ⟨bc, hbc⟩ := scanCatAux_ok tx ty st.cats hcats 0 none
          rw [hbc, ebind_ok]
          cases bc with
          | none => exact ⟨_, rfl⟩
          | some trip2 =>
            obtain ⟨cIdx, cRow, cEta⟩ := trip2
            dsimp only
            obtain ⟨bp, hbp⟩ := scanPickAux_ok (pylower t.Typ) tx ty st.usedPick pics hpics 0 none
            rw [hbp, ebind_ok]
            cases bp with
            | none => exact ⟨_, rfl⟩
            | some trip3 => exact ⟨_, rfl⟩
  · rw [if_neg hvt]
    exact ⟨_, rfl⟩

theorem runTargets_inv {cats0 : List CatRow} {offs : List OffRow} {pics : List PickRow} :
    ∀ (tars : List TarRow) (st st' : PSt), runTargets offs pics tars st = .ok st' →
      EngineInv cats0 st → EngineInv cats0 st'
  | [], st, st' => by
    intro h inv
    unfold runTargets at h
    injection h with h2
    exact h2 ▸ inv
  | t :: ts, st, st' => by
    intro h inv
    unfold runTargets at h
    cases hstep : tarStep offs pics st t with
    | error u =>
      rw [hstep] at h
      cases u
      rw [ebind_err] at h
      cases h
    | ok st1 =>
      rw [hstep, ebind_ok] at h
      exact runTargets_inv ts st1 st' h (tarStep_inv hstep inv)

/-- Under the §6 row contract the whole run succeeds, and the names in
`planned` and `unplanned` together are exactly the processed targets'
names (with multiplicity). -/
theorem runTargets_master {offs : List OffRow} {pics : List PickRow}
    (hoffs : ∀ o ∈ offs, SafeRow o.Speed o.TS)
    (hpics : ∀ p ∈ pics, SafeRow p.Speed p.TS) :
    ∀ (tars : List TarRow) (st : PSt), (∀ c ∈ st.cats, SafeRow c.Speed c.TS) →
      ∃ st', runTargets offs pics tars st = .ok st' ∧
        List.Perm
          (st'.planned.map (fun e => e.Artefact) ++ st'.unplanned.map (fun e => e.Artefact))
          ((st.planned.map (fun e => e.Artefact) ++ st.unplanned.map (fun e => e.Artefact)) ++
            tars.map (fun t => t.Artefact))
  | [], st, hcats => ⟨st, rfl, by simp⟩
  | t :: ts, st, hcats => by
    obtain ⟨st1, hstep⟩ := tarStep_ok offs pics st t hoffs hcats hpics
    obtain ⟨st', hrun, hperm⟩ := runTargets_master hoffs hpics ts st1 (tarStep_safe hstep hcats)
    refine ⟨st', ?_, ?_⟩
    · unfold runTargets
      rw [hstep, ebind_ok]
      exact hrun
    · refine hperm.trans ?_
      have h1 := List.Perm.append_right (ts.map (fun t => t.Artefact)) (tarStep_counts hstep)
      refine h1.trans ?_
      rw [List.append_assoc]
      exact List.Perm.refl _

/-- Once a CATA cell is zero (or negative) it is never selected again:
its cell and its usage count are frozen for the rest of the run. -/
theorem tarStep_zero_frozen {offs : List OffRow} {pics : List PickRow} {st : PSt}
    {t : TarRow} {st' : PSt} (h : tarStep offs pics st t = .ok st') (j : ℕ)
    (hz : usesAt st.cats j ≤ 0) :
    usesAt st'.cats j = usesAt st.cats j ∧ catUses j st'.planned = catUses j st.planned := by
  rcases tarStep_cases offs pics st t st' h with ⟨r, rfl⟩ |
    ⟨oIdx, oRow, oEta, cIdx, cRow, cEta, pIdx, pRow, pEta, tx, ty, hx, hy, hbo, hbc, hbp, rfl⟩
  · exact ⟨rfl, rfl⟩
  · have hget : st.cats.get? cIdx = some cRow ∧ 0 < cRow.UsesLeft.getD 0 := by
      rcases scanCatAux_some tx ty st.cats 0 none cIdx cRow cEta hbc with h' | h'
      · exact ⟨by simpa using h'.2.2.1, h'.2.2.2⟩
      · cases h'
    have hne : cIdx ≠ j := by
      intro hj
      rw [hj] at hget
      rw [usesAt_of_get? hget.1] at hz
      omega
    constructor
    · exact usesAt_set_ne _ _ _ _ hne
    · dsimp only
      rw [catUses_append, if_neg hne]
      omega

theorem runTargets_zero_frozen {offs : List OffRow} {pics : List PickRow} (j : ℕ) :
    ∀ (tars : List TarRow) (st st' : PSt), runTargets offs pics tars st = .ok st' →
      usesAt st.cats j ≤ 0 →
      usesAt st'.cats j = usesAt st.cats j ∧ catUses j st'.planned = catUses j st.planned
  | [], st, st' => by
    intro h hz
    unfold runTargets at h
    injection h with h2
    exact h2 ▸ ⟨rfl, rfl⟩
  | t :: ts, st, st' => by
    intro h hz
    unfold runTargets at h
    cases hstep : tarStep offs pics st t with
    | error u =>
      rw [hstep] at h
      cases u
      rw [ebind_err] at h
      cases h
    | ok st1 =>
      rw [hstep, ebind_ok] at h
      obtain ⟨hc1, hc2⟩ := tarStep_zero_frozen hstep j hz
      obtain ⟨hd1, hd2⟩ := runTargets_zero_frozen j ts st1 st' h (by omega)
      exact ⟨by omega, by omega⟩

/-! ### Claim theorems for the engine -/

/-- C10: a planning run never modifies the four input tables — the
session state returned by `create_plan_session` carries the `OFFS`,
`CATTAS`, `PICKUPS` and `TARGETS` tables unchanged (the engine works on
copies), and only `PLANNED`/`UNPLANNED` are replaced. -/
theorem C10_frame (s : Session) :
    (create_plan_session s).map (fun s' => (s'.OFFS, s'.CATTAS, s'.PICKUPS, s'.TARGETS)) =
      (create_plan_session s).map (fun _ => (s.OFFS, s.CATTAS, s.PICKUPS, s.TARGETS)) := by
  unfold create_plan_session
  cases create_plan ⟨s.OFFS, s.CATTAS, s.PICKUPS, s.TARGETS⟩ <;> rfl

/-- C1 (amended): provided every pool record has nonzero speed and
nonnegative bonus level (per the §6 contract; outside it the travel-time
division raises `ZeroDivisionError` and aborts the run — see C4), the
run succeeds, `|planned| + |unplanned| = |targets|`, the names in the
two outputs are together a permutation of the input target names (each
target row is covered exactly once), and whenever the input target
names are distinct no name appears in both outputs.  (Distinct targets
sharing one name can land one in each output, so name-disjointness needs
that hypothesis — see the counterexample.) -/
theorem C1_partition (tb : Tables)
    (hoff : ∀ o ∈ tb.OFFS, o.Speed ≠ 0 ∧ 0 ≤ o.TS)
    (hcat : ∀ c ∈ tb.CATTAS, c.Speed ≠ 0 ∧ 0 ≤ c.TS)
    (hpick : ∀ p ∈ tb.PICKUPS, p.Speed ≠ 0 ∧ 0 ≤ p.TS) :
    ∃ p u, create_plan tb = .ok (p, u) ∧
      p.length + u.length = tb.TARGETS.length ∧
      List.Perm (p.map (fun e => e.Artefact) ++ u.map (fun e => e.Artefact))
        (tb.TARGETS.map (fun t => t.Artefact)) ∧
      ((tb.TARGETS.map (fun t => t.Artefact)).Nodup →
        ∀ nm, nm ∈ p.map (fun e => e.Artefact) → nm ∉ u.map (fun e => e.Artefact)) := by
  have hoffs : ∀ o ∈ tb.OFFS.map normOff, SafeRow o.Speed o.TS := by
    intro o ho
    obtain ⟨o0, ho0, rfl⟩ := List.mem_map.mp ho
    exact hoff o0 ho0
  have hpics : ∀ p ∈ tb.PICKUPS.map normPick, SafeRow p.Speed p.TS := by
    intro p hp
    obtain ⟨p0, hp0, rfl⟩ := List.mem_map.mp hp
    exact hpick p0 hp0
  have hcats : ∀ c ∈ (⟨tb.CATTAS.map normCat, [], [], [], []⟩ : PSt).cats,
      SafeRow c.Speed c.TS := by
    intro c hc
    obtain ⟨c0, hc0, rfl⟩ := List.mem_map.mp hc
    exact hcat c0 hc0
  obtain ⟨st', hrun, hperm⟩ := runTargets_master hoffs hpics (sortTargets tb.TARGETS)
    ⟨tb.CATTAS.map normCat, [], [], [], []⟩ hcats
  have hperm2 : List.Perm
      (st'.planned.map (fun e => e.Artefact) ++ st'.unplanned.map (fun e => e.Artefact))
      (tb.TARGETS.map (fun t => t.Artefact)) := by
    refine (hperm.trans ?_).trans ((List.perm_insertionSort tarLe tb.TARGETS).map _)
    simp [sortTargets]
  refine ⟨st'.planned, st'.unplanned, ?_, ?_, hperm2, ?_⟩
  · unfold create_plan
    dsimp only
    rw [hrun, emap_ok]
  · have hl := hperm2.length_eq
    simpa using hl
  · intro hnd nm hp hu
    have hnodup : (st'.planned.map (fun e => e.Artefact) ++
        st'.unplanned.map (fun e => e.Artefact)).Nodup := hperm2.nodup_iff.mpr hnd
    rw [List.nodup_append] at hnodup
    exact hnodup.2.2 hp hu

/-- C2 (amended): in every successful run each strike force and each
carrier is used in at most one plan row; each siege asset `j` is used at
most `max(initial UsesLeft, 0)` times — at most twice only when its
initial `UsesLeft` is at most 2 (missing cells default to 2, but larger
input values are honoured, see the counterexample); a nonnegative
capacity cell never becomes negative during a run; and once a cell is
zero (or below) the asset is never selected again. -/
theorem C2_capacity (tb : Tables) (p : List PlanEntry) (u : List UnpEntry)
    (h : create_plan tb = .ok (p, u)) :
    (∀ j, offUses j p ≤ 1) ∧
    (∀ j, pickUses j p ≤ 1) ∧
    (∀ j, (catUses j p : ℤ) ≤ max (usesAt (tb.CATTAS.map normCat) j) 0) ∧
    (∀ (tars : List TarRow) (st' : PSt),
      runTargets (tb.OFFS.map normOff) (tb.PICKUPS.map normPick) tars
          ⟨tb.CATTAS.map normCat, [], [], [], []⟩ = .ok st' →
      ∀ j, 0 ≤ usesAt (tb.CATTAS.map normCat) j → 0 ≤ usesAt st'.cats j) ∧
    (∀ (tars : List TarRow) (st st' : PSt) (j : ℕ),
      runTargets (tb.OFFS.map normOff) (tb.PICKUPS.map normPick) tars st = .ok st' →
      usesAt st.cats j ≤ 0 → catUses j st'.planned = catUses j st.planned) := by
  have hinv0 : EngineInv (tb.CATTAS.map normCat) ⟨tb.CATTAS.map normCat, [], [], [], []⟩ := by
    refine ⟨?_, ?_, ?_, ?_⟩
    · intro j
      simp [offUses]
    · intro j
      simp [pickUses]
    · intro j
      simp [catUses]
    · intro j
      simp [catUses]
  obtain ⟨st', hrun, hpu⟩ : ∃ st',
      runTargets (tb.OFFS.map normOff) (tb.PICKUPS.map normPick) (sortTargets tb.TARGETS)
        ⟨tb.CATTAS.map normCat, [], [], [], []⟩ = .ok st' ∧
      (st'.planned, st'.unplanned) = (p, u) := by
    unfold create_plan at h
    dsimp only at h
    cases hr : runTargets (tb.OFFS.map normOff) (tb.PICKUPS.map normPick)
        (sortTargets tb.TARGETS) ⟨tb.CATTAS.map normCat, [], [], [], []⟩ with
    | error e =>
      rw [hr] at h
      cases e
      rw [emap_err] at h
      cases h
    | ok st' =>
      rw [hr, emap_ok] at h
      exact ⟨st', rfl, by injection h⟩
  have hp : st'.planned = p := congrArg Prod.fst hpu
  have inv := @runTargets_inv (tb.CATTAS.map normCat) _ _ _ _ _ hrun hinv0
  refine ⟨?_, ?_, ?_, ?_, ?_⟩
  · intro j
    have h0 := inv.offB j
    rw [hp] at h0
    by_cases hjm : j ∈ st'.usedOff
    · rw [if_pos hjm] at h0
      exact h0
    · rw [if_neg hjm] at h0
      omega
  · intro j
    have h0 := inv.pickB j
    rw [hp] at h0
    by_cases hjm : j ∈ st'.usedPick
    · rw [if_pos hjm] at h0
      exact h0
    · rw [if_neg hjm] at h0
      omega
  · intro j
    have h1 := inv.catB j
    have h2 := inv.catNN j
    rw [hp] at h1 h2
    rcases Nat.eq_zero_or_pos (catUses j p) with hz | hpos
    · rw [hz]
      exact le_max_of_le_right (by omega)
    · have h3 := h2 hpos
      refine le_max_of_le_left ?_
      omega
  · intro tars st' hrun' j hnn
    have inv' := @runTargets_inv (tb.CATTAS.map normCat) _ _ _ _ _ hrun' hinv0
    have h1 := inv'.catB j
    have h2 := inv'.catNN j
    rcases Nat.eq_zero_or_pos (catUses j st'.planned) with hz | hpos
    · omega
    · exact h2 hpos
  · intro tars st st' j hrun' hz
    exact (runTargets_zero_frozen j tars st st' hrun' hz).2

/-- C9: for a target that passed validation, the three pools are
consulted in the fixed order OFF → CATA → PICKUP and the unplanned
reason names the first pool that yields no candidate; exactly one
unplanned row is appended, the rest of the state is untouched, and —
since each equation holds for arbitrary later pools — the pools after
the first failing one are not consulted. -/
theorem C9_first_failing_pool (offs : List OffRow) (pics : List PickRow) (st : PSt)
    (t : TarRow) (tx ty : ℚ) (hty : pylower t.Typ ∈ VALID_TYPES)
    (hx : t.coord_x = some tx) (hy : t.coord_y = some ty) :
    (scanOffAux (pylower t.Typ) tx ty st.usedOff 0 offs none = .ok none →
      tarStep offs pics st t =
        .ok { st with unplanned := st.unplanned ++ [⟨t.Artefact, "No compatible OFF"⟩] }) ∧
    (∀ oI oR oE,
      scanOffAux (pylower t.Typ) tx ty st.usedOff 0 offs none = .ok (some (oI, oR, oE)) →
      scanCatAux tx ty 0 st.cats none = .ok none →
      tarStep offs pics st t =
        .ok { st with unplanned := st.unplanned ++ [⟨t.Artefact, "No CATA with uses left"⟩] }) ∧
    (∀ oI oR oE cI cR cE,
      scanOffAux (pylower t.Typ) tx ty st.usedOff 0 offs none = .ok (some (oI, oR, oE)) →
      scanCatAux tx ty 0 st.cats none = .ok (some (cI, cR, cE)) →
      scanPickAux (pylower t.Typ) tx ty st.usedPick 0 pics none = .ok none →
      tarStep offs pics st t =
        .ok { st with
          unplanned := st.unplanned ++ [⟨t.Artefact, "No compatible PICKUP (treasury)"⟩] }) := by
  refine ⟨?_, ?_, ?_⟩
  · intro hbo
    unfold tarStep
    dsimp only
    rw [if_pos hty, hx, hy]
    dsimp only
    rw [hbo, ebind_ok]
  · intro oI oR oE hbo hbc
    unfold tarStep
    dsimp only
    rw [if_pos hty, hx, hy]
    dsimp only
    rw [hbo, ebind_ok]
    dsimp only
    rw [hbc, ebind_ok]
  · intro oI oR oE cI cR cE hbo hbc hbp
    unfold tarStep
    dsimp only
    rw [if_pos hty, hx, hy]
    dsimp only
    rw [hbo, ebind_ok]
    dsimp only
    rw [hbc, ebind_ok]
    dsimp only
    rw [hbp, ebind_ok]

/-! ### Concrete counterexamples -/

set_option maxHeartbeats 1600000 in
/-- C1 (counterexample): the claim fails as stated on two counts.
With two distinct targets both named `"A"` (one valid, one with an
unrecognised category) the name `"A"` appears in *both* output sets; and
with a pool record of speed `0` the run raises `ZeroDivisionError`
instead of terminating with the two record sets. -/
theorem C1_claim_counterexample :
    (create_plan ⟨[⟨"O1", some 0, some 0, 1, 0, "small"⟩],
        [⟨"C1", some 0, some 0, 1, 0, some 2⟩],
        [⟨"P1", some 0, some 0, some 25, 1, 0⟩],
        [⟨"A", "small", some 0, some 0⟩, ⟨"A", "bogus", some 0, some 0⟩]⟩).map
      (fun out => (out.1.map (fun e => e.Artefact), out.2.map (fun e => e.Artefact))) =
      .ok (["A"], ["A"]) ∧
    create_plan ⟨[⟨"O0", some 0, some 0, 0, 0, "small"⟩],
        [⟨"C1", some 0, some 0, 1, 0, some 2⟩],
        [⟨"P1", some 0, some 0, some 25, 1, 0⟩],
        [⟨"A", "small", some 0, some 0⟩]⟩ = .error () := by
  constructor
  · norm_num +decide [create_plan, runTargets, tarStep, scanOffAux, scanCatAux, scanPickAux,
      ts_travel_hours, pydiv, pydivQI, etaLt, QI.blt, QI.ltTermRatTerm, QI.ltTermRat,
      QI.ltRatTerm, QI.pymax, sortTargets, List.insertionSort, List.orderedInsert,
      normOff, normCat, normPick, ebind_ok, ebind_err, emap_ok, emap_err, pyint]
  · norm_num +decide [create_plan, runTargets, tarStep, scanOffAux, scanCatAux, scanPickAux,
      ts_travel_hours, pydiv, pydivQI, etaLt, QI.blt, QI.ltTermRatTerm, QI.ltTermRat,
      QI.ltRatTerm, QI.pymax, sortTargets, List.insertionSort, List.orderedInsert,
      normOff, normCat, normPick, ebind_ok, ebind_err, emap_ok, emap_err, pyint]

set_option maxHeartbeats 1600000 in
/-- C2 (counterexample): a siege asset whose input `UsesLeft` is 3 is
selected for three plan rows in one run — the code honours the input
cell and does not cap it at two. -/
theorem C2_claim_counterexample :
    (create_plan ⟨[⟨"O1", some 0, some 0, 1, 0, "small"⟩, ⟨"O2", some 0, some 0, 1, 0, "small"⟩,
        ⟨"O3", some 0, some 0, 1, 0, "small"⟩],
        [⟨"C1", some 0, some 0, 1, 0, some 3⟩],
        [⟨"P1", some 0, some 0, some 25, 1, 0⟩, ⟨"P2", some 0, some 0, some 25, 1, 0⟩,
          ⟨"P3", some 0, some 0, some 25, 1, 0⟩],
        [⟨"T1", "small", some 0, some 0⟩, ⟨"T2", "small", some 0, some 0⟩,
          ⟨"T3", "small", some 0, some 0⟩]⟩).map
      (fun out => catUses 0 out.1) = .ok 3 ∧ ¬ (3 : ℕ) ≤ 2 := by
  constructor
  · norm_num +decide [create_plan, runTargets, tarStep, scanOffAux, scanCatAux, scanPickAux,
      ts_travel_hours, pydiv, pydivQI, etaLt, QI.blt, QI.ltTermRatTerm, QI.ltTermRat,
      QI.ltRatTerm, QI.pymax, sortTargets, List.insertionSort, List.orderedInsert,
      normOff, normCat, normPick, ebind_ok, ebind_err, emap_ok, emap_err, pyint,
      catUses, List.countP_cons, tarLe, tarKey, priority_key]
  · omega

/-! ### Witnesses -/

/-- Witness for C1: a concrete one-target run satisfying the amended
claim's hypotheses. -/
theorem C1_partition_witness :
    (∀ o ∈ ([⟨"O1", some 0, some 0, 1, 0, "small"⟩] : List OffRow),
      o.Speed ≠ 0 ∧ 0 ≤ o.TS) ∧
    (∀ c ∈ ([⟨"C1", some 0, some 0, 1, 0, some 2⟩] : List CatRow),
      c.Speed ≠ 0 ∧ 0 ≤ c.TS) ∧
    (∀ p ∈ ([⟨"P1", some 0, some 0, some 25, 1, 0⟩] : List PickRow),
      p.Speed ≠ 0 ∧ 0 ≤ p.TS) ∧
    ∃ p u,
      create_plan ⟨[⟨"O1", some 0, some 0, 1, 0, "small"⟩],
          [⟨"C1", some 0, some 0, 1, 0, some 2⟩],
          [⟨"P1", some 0, some 0, some 25, 1, 0⟩],
          [⟨"T1", "small", some 0, some 0⟩]⟩ = .ok (p, u) ∧
      p.length + u.length = 1 ∧
      List.Perm (p.map (fun e => e.Artefact) ++ u.map (fun e => e.Artefact)) ["T1"] ∧
      ((["T1"] : List String).Nodup →
        ∀ nm, nm ∈ p.map (fun e => e.Artefact) → nm ∉ u.map (fun e => e.Artefact)) :=
  ⟨by decide, by decide, by decide,
    C1_partition ⟨[⟨"O1", some 0, some 0, 1, 0, "small"⟩],
        [⟨"C1", some 0, some 0, 1, 0, some 2⟩],
        [⟨"P1", some 0, some 0, some 25, 1, 0⟩],
        [⟨"T1", "small", some 0, some 0⟩]⟩ (by decide) (by decide) (by decide)⟩

set_option maxHeartbeats 1600000 in
/-- Witness for C2: a concrete successful run discharging the
`create_plan … = .ok …` hypothesis. -/
theorem C2_capacity_witness :
    create_plan ⟨[⟨"O1", some 0, some 0, 1, 0, "small"⟩],
        [⟨"C1", some 0, some 0, 1, 0, some 2⟩],
        [⟨"P1", some 0, some 0, some 25, 1, 0⟩],
        [⟨"T1", "small", some 0, some 0⟩]⟩ =
      .ok ([⟨"T1", "small", 0, 0, "O1", ⟨1, 0, 0⟩, "C1", ⟨1, 0, 0⟩, "P1", ⟨1, 0, 0⟩,
        ⟨1, 0, 0⟩, 0, 0, 0⟩], []) ∧
    ((∀ j, offUses j [⟨"T1", "small", 0, 0, "O1", ⟨1, 0, 0⟩, "C1", ⟨1, 0, 0⟩, "P1", ⟨1, 0, 0⟩,
        ⟨1, 0, 0⟩, 0, 0, 0⟩] ≤ 1) ∧
      (∀ j, pickUses j [⟨"T1", "small", 0, 0, "O1", ⟨1, 0, 0⟩, "C1", ⟨1, 0, 0⟩, "P1", ⟨1, 0, 0⟩,
        ⟨1, 0, 0⟩, 0, 0, 0⟩] ≤ 1) ∧
      (∀ j, (catUses j [⟨"T1", "small", 0, 0, "O1", ⟨1, 0, 0⟩, "C1", ⟨1, 0, 0⟩, "P1", ⟨1, 0, 0⟩,
          ⟨1, 0, 0⟩, 0, 0, 0⟩] : ℤ) ≤
        max (usesAt (([⟨"C1", some 0, some 0, 1, 0, some 2⟩] : List CatRow).map normCat) j) 0) ∧
      (∀ (tars : List TarRow) (st' : PSt),
        runTargets (([⟨"O1", some 0, some 0, 1, 0, "small"⟩] : List OffRow).map normOff)
            (([⟨"P1", some 0, some 0, some 25, 1, 0⟩] : List PickRow).map normPick) tars
            ⟨([⟨"C1", some 0, some 0, 1, 0, some 2⟩] : List CatRow).map normCat,
              [], [], [], []⟩ = .ok st' →
        ∀ j, 0 ≤ usesAt (([⟨"C1", some 0, some 0, 1, 0, some 2⟩] : List CatRow).map normCat) j →
          0 ≤ usesAt st'.cats j) ∧
      (∀ (tars : List TarRow) (st st' : PSt) (j : ℕ),
        runTargets (([⟨"O1", some 0, some 0, 1, 0, "small"⟩] : List OffRow).map normOff)
            (([⟨"P1", some 0, some 0, some 25, 1, 0⟩] : List PickRow).map normPick) tars st =
          .ok st' →
        usesAt st.cats j ≤ 0 → catUses j st'.planned = catUses j st.planned)) := by
  have h : create_plan ⟨[⟨"O1", some 0, some 0, 1, 0, "small"⟩],
      [⟨"C1", some 0, some 0, 1, 0, some 2⟩],
      [⟨"P1", some 0, some 0, some 25, 1, 0⟩],
      [⟨"T1", "small", some 0, some 0⟩]⟩ =
      .ok ([⟨"T1", "small", 0, 0, "O1", ⟨1, 0, 0⟩, "C1", ⟨1, 0, 0⟩, "P1", ⟨1, 0, 0⟩,
        ⟨1, 0, 0⟩, 0, 0, 0⟩], []) := by
    norm_num +decide [create_plan, runTargets, tarStep, scanOffAux, scanCatAux, scanPickAux,
      ts_travel_hours, pydiv, pydivQI, etaLt, QI.blt, QI.ltTermRatTerm, QI.ltTermRat,
      QI.ltRatTerm, QI.pymax, sortTargets, List.insertionSort, List.orderedInsert,
      normOff, normCat, normPick, ebind_ok, ebind_err, emap_ok, emap_err, pyint]
  exact ⟨h, C2_capacity _ _ _ h⟩

/-- Witness for C3: the near-leg formula at distance 5 (coordinates
`(0,0)` and `(3,4)`), speed 10. -/
theorem C3_travel_legs_witness :
    ((10 : ℚ) ≠ 0) ∧ ((0 - 3 : ℚ) ^ 2 + (0 - 4 : ℚ) ^ 2 ≤ 400) ∧
    (ts_travel_hours 0 0 3 4 10 0).map QI.toReal =
      .ok (Real.sqrt (((0 - 3 : ℚ) ^ 2 + (0 - 4 : ℚ) ^ 2 : ℚ) : ℝ) / ((10 : ℚ) : ℝ)) :=
  ⟨by norm_num, by norm_num, (C3_travel_legs 0 0 3 4 10 0 (by norm_num)).1 (by norm_num)⟩

/-- Witness for C6: a unique-category input classified at `(1,0)`. -/
theorem C6_priority_classifier_witness :
    ((pylower "UNIQUE" == "unique" || pyin "unique" (pylower "x") ||
      pyin "einzig" (pylower "x")) = true) ∧
    priority_key "x" "UNIQUE" = (1, 0) :=
  ⟨by decide, C6_priority_classifier.2.1 "x" "UNIQUE" (by decide)⟩

/-- Witness for C7: the compatibility tables at a concrete recognised
pair. -/
theorem C7_compat_tables_witness :
    (("small" : String) ∈ VALID_TYPES) ∧
    (off_compat "small" "small" = true ↔
      (normalize_off_type "small" = "small" ∧ ("small" : String) = "small") ∨
        (normalize_off_type "small" = "large" ∧
          (("small" : String) = "large" ∨ ("small" : String) = "small")) ∨
          normalize_off_type "small" = "unique") :=
  ⟨by decide, C7_compat_tables.1 "small" "small" (by decide)⟩

/-- Witness for C8: a unique-typed force accepts an arbitrary target
string. -/
theorem C8_fail_closed_amended_witness :
    (normalize_off_type "unique" = "unique") ∧ off_compat "unique" "gold" = true :=
  ⟨by decide, C8_fail_closed_amended.2.2.2.1 "unique" "gold" (by decide)⟩

/-- Witness for C9: an empty OFF pool makes the step report
`No compatible OFF` regardless of the other pools. -/
theorem C9_first_failing_pool_witness :
    (pylower (⟨"T", "small", some 0, some 0⟩ : TarRow).Typ ∈ VALID_TYPES) ∧
    ((⟨"T", "small", some 0, some 0⟩ : TarRow).coord_x = some 0) ∧
    ((⟨"T", "small", some 0, some 0⟩ : TarRow).coord_y = some 0) ∧
    (scanOffAux (pylower (⟨"T", "small", some 0, some 0⟩ : TarRow).Typ) 0 0 [] 0 []
      none = .ok none) ∧
    tarStep [] [] ⟨[], [], [], [], []⟩ ⟨"T", "small", some 0, some 0⟩ =
      .ok ⟨[], [], [], [], [⟨"T", "No compatible OFF"⟩]⟩ :=
  ⟨by decide, rfl, rfl, rfl,
    (C9_first_failing_pool [] [] ⟨[], [], [], [], []⟩ ⟨"T", "small", some 0, some 0⟩ 0 0
      (by decide) rfl rfl).1 rfl⟩

/-! ### Correctness of the exact comparison: `QI.blt` decides precisely
the real-number order that the source's float comparison idealises -/
theorem ltRatTerm_iff (q a s : ℚ) (hs : 0 ≤ s) :
    QI.ltRatTerm q a s = true ↔ (q : ℝ) < (a : ℝ) * Real.sqrt (s : ℝ) := by
  unfold QI.ltRatTerm
  by_cases h0 : a = 0 ∨ s ≤ 0
  · rw [if_pos h0]
    have hz : (a : ℝ) * Real.sqrt (s : ℝ) = 0 := by
      rcases h0 with h | h
      · simp [h]
      · have : s = 0 := le_antisymm h hs
        simp [this]
    rw [hz]
    simp only [decide_eq_true_eq]
    exact_mod_cast Iff.rfl
  · push_neg at h0
    obtain ⟨ha, hs'⟩ := h0
    rw [if_neg (fun h => h.elim ha fun hle => absurd hle (not_le.mpr hs'))]
    have hs0 : (0 : ℝ) < (s : ℝ) := by exact_mod_cast hs'
    have hsq : (0 : ℝ) < Real.sqrt (s : ℝ) := Real.sqrt_pos.mpr hs0
    by_cases hap : 0 < a
    · rw [if_pos hap]
      have haR : (0 : ℝ) < (a : ℝ) := by exact_mod_cast hap
      have hkey : (a : ℝ) * Real.sqrt (s : ℝ) = Real.sqrt ((a : ℝ) ^ 2 * (s : ℝ)) := by
        rw [Real.sqrt_mul (by positivity) ((s : ℚ) : ℝ), Real.sqrt_sq (le_of_lt haR)]
      simp only [Bool.or_eq_true, decide_eq_true_eq]
      rw [hkey]
      constructor
      · rintro (h | h)
        · exact lt_of_lt_of_le (by exact_mod_cast h) (Real.sqrt_nonneg _)
        · rcases lt_or_le q 0 with hq | hq
          · exact lt_of_lt_of_le (by exact_mod_cast hq) (Real.sqrt_nonneg _)
          · rw [Real.lt_sqrt (by exact_mod_cast hq)]
            exact_mod_cast h
      · intro h
        rcases lt_or_le q 0 with hq | hq
        · exact Or.inl hq
        · right
          rw [Real.lt_sqrt (by exact_mod_cast hq)] at h
          exact_mod_cast h
    · rw [if_neg hap]
      have han : a < 0 := lt_of_le_of_ne (le_of_not_lt hap) ha
      have haR : (a : ℝ) < 0 := by exact_mod_cast han
      have hkey : Real.sqrt ((a : ℝ) ^ 2 * (s : ℝ)) = -(a : ℝ) * Real.sqrt (s : ℝ) := by
        rw [Real.sqrt_mul (by positivity) ((s : ℚ) : ℝ), Real.sqrt_sq_eq_abs, abs_of_neg haR]
      simp only [Bool.and_eq_true, decide_eq_true_eq]
      constructor
      · rintro ⟨hq, hsqlt⟩
        have hcast : (a : ℝ) ^ 2 * (s : ℝ) < (q : ℝ) ^ 2 := by exact_mod_cast hsqlt
        have h2 : Real.sqrt ((a : ℝ) ^ 2 * (s : ℝ)) < ((-q : ℚ) : ℝ) := by
          rw [Real.sqrt_lt' (by exact_mod_cast neg_pos.mpr hq)]
          push_cast
          nlinarith [hcast]
        rw [hkey] at h2
        push_cast at h2
        linarith
      · intro h
        have hle : (a : ℝ) * Real.sqrt (s : ℝ) < 0 := mul_neg_of_neg_of_pos haR hsq
        have hq : q < 0 := by exact_mod_cast lt_trans h hle
        refine ⟨hq, ?_⟩
        have h2 : Real.sqrt ((a : ℝ) ^ 2 * (s : ℝ)) < ((-q : ℚ) : ℝ) := by
          rw [hkey]
          push_cast
          linarith
        rw [Real.sqrt_lt' (by exact_mod_cast neg_pos.mpr hq)] at h2
        have : (a : ℝ) ^ 2 * (s : ℝ) < (q : ℝ) ^ 2 := by push_cast at h2; nlinarith
        exact_mod_cast this

theorem ltTermRat_iff (a s q : ℚ) (hs : 0 ≤ s) :
    QI.ltTermRat a s q = true ↔ (a : ℝ) * Real.sqrt (s : ℝ) < (q : ℝ) := by
  unfold QI.ltTermRat
  rw [ltRatTerm_iff _ _ _ hs]
  push_cast
  constructor <;> intro h <;> linarith

theorem term_zero {a s : ℚ} (h : a = 0 ∨ s ≤ 0) (hs : 0 ≤ s) :
    (a : ℝ) * Real.sqrt (s : ℝ) = 0 := by
  rcases h with h | h
  · simp [h]
  · have : s = 0 := le_antisymm h hs
    simp [this]

theorem ltTermRatTerm_iff (a1 s1 c a2 s2 : ℚ) (h1 : 0 ≤ s1) (h2 : 0 ≤ s2) :
    QI.ltTermRatTerm a1 s1 c a2 s2 = true ↔
      (a1 : ℝ) * Real.sqrt (s1 : ℝ) < (c : ℝ) + (a2 : ℝ) * Real.sqrt (s2 : ℝ) := by
  unfold QI.ltTermRatTerm
  by_cases hz2 : a2 = 0 ∨ s2 ≤ 0
  · rw [if_pos hz2, ltTermRat_iff _ _ _ h1, term_zero hz2 h2, add_zero]
  · rw [if_neg hz2]
    push_neg at hz2
    obtain ⟨ha2, hs2'⟩ := hz2
    have hv0 : (0 : ℝ) < Real.sqrt (s2 : ℝ) := Real.sqrt_pos.mpr (by exact_mod_cast hs2')
    have hv2 : ((a2 : ℝ) * Real.sqrt (s2 : ℝ)) ^ 2 = (a2 : ℝ) ^ 2 * (s2 : ℝ) := by
      rw [mul_pow, Real.sq_sqrt (by exact_mod_cast h2)]
    by_cases hz1 : a1 = 0 ∨ s1 ≤ 0
    · rw [if_pos hz1, ltRatTerm_iff _ _ _ h2, term_zero hz1 h1]
      push_cast
      constructor <;> intro h <;> linarith
    · rw [if_neg hz1]
      push_neg at hz1
      obtain ⟨ha1, hs1'⟩ := hz1
      have hu2 : ((a1 : ℝ) * Real.sqrt (s1 : ℝ)) ^ 2 = (a1 : ℝ) ^ 2 * (s1 : ℝ) := by
        rw [mul_pow, Real.sq_sqrt (by exact_mod_cast h1)]
      have hrp := ltRatTerm_iff (-c) a2 s2 h2
      have hsq1 : (0 : ℝ) < Real.sqrt (s1 : ℝ) := Real.sqrt_pos.mpr (by exact_mod_cast hs1')
      by_cases hap : 0 < a1
      · rw [if_pos hap]
        have hu0 : (0 : ℝ) < (a1 : ℝ) * Real.sqrt (s1 : ℝ) :=
          mul_pos (by exact_mod_cast hap) hsq1
        simp only [Bool.and_eq_true]
        rw [hrp, ltRatTerm_iff _ _ _ h2]
        push_cast
        constructor
        · rintro ⟨hpos, hsq⟩
          have hcv : (0 : ℝ) < (c : ℝ) + (a2 : ℝ) * Real.sqrt (s2 : ℝ) := by linarith
          have hsq' : ((a1 : ℝ) * Real.sqrt (s1 : ℝ)) ^ 2 <
              ((c : ℝ) + (a2 : ℝ) * Real.sqrt (s2 : ℝ)) ^ 2 := by
            rw [hu2]
            nlinarith [hv2, hsq]
          nlinarith [hu0, hcv, hsq']
        · intro h
          have hcv : (0 : ℝ) < (c : ℝ) + (a2 : ℝ) * Real.sqrt (s2 : ℝ) := lt_trans hu0 h
          refine ⟨by linarith, ?_⟩
          have hsq' : ((a1 : ℝ) * Real.sqrt (s1 : ℝ)) ^ 2 <
              ((c : ℝ) + (a2 : ℝ) * Real.sqrt (s2 : ℝ)) ^ 2 := by nlinarith
          rw [hu2] at hsq'
          nlinarith [hv2, hsq']
      · rw [if_neg hap]
        have han : a1 < 0 := lt_of_le_of_ne (le_of_not_lt hap) ha1
        have hu0 : (a1 : ℝ) * Real.sqrt (s1 : ℝ) < 0 :=
          mul_neg_of_neg_of_pos (by exact_mod_cast han) hsq1
        simp only [Bool.or_eq_true]
        rw [hrp, ltTermRat_iff _ _ _ h2]
        push_cast
        constructor
        · rintro (hpos | hsq)
          · linarith
          · have hsq' : ((c : ℝ) + (a2 : ℝ) * Real.sqrt (s2 : ℝ)) ^ 2 <
                ((a1 : ℝ) * Real.sqrt (s1 : ℝ)) ^ 2 := by
              rw [hu2]
              nlinarith [hv2, hsq]
            nlinarith [hu0, hsq']
        · intro h
          rcases lt_or_le 0 ((c : ℝ) + (a2 : ℝ) * Real.sqrt (s2 : ℝ)) with hcv | hcv
          · left
            linarith
          · right
            have hsq' : ((c : ℝ) + (a2 : ℝ) * Real.sqrt (s2 : ℝ)) ^ 2 <
                ((a1 : ℝ) * Real.sqrt (s1 : ℝ)) ^ 2 := by nlinarith [hu0]
            rw [hu2] at hsq'
            nlinarith [hv2, hsq']

theorem blt_iff (x y : QI) (hx : 0 ≤ x.s) (hy : 0 ≤ y.s) :
    QI.blt x y = true ↔ x.toReal < y.toReal := by
  unfold QI.blt QI.toReal
  rw [ltTermRatTerm_iff _ _ _ _ _ hx hy]
  push_cast
  constructor <;> intro h <;> linarith

end Planner
